import Mathlib

/-!
# SQL Server adapter of nvim-dbee: a shallow embedding

The development follows `dbee/adapters/sqlserver_driver.go`.  The adapter is a
thin layer over the execution engine (`builders.Client`), the result cursor
(`core.ResultStream`) and Go's `net/url` and `database/sql` packages.  The
adapter's own methods are transcribed from the Go text; the collaborators it
calls are modelled next to them, each with a comment saying where the model
comes from.
-/

set_option maxRecDepth 100000

namespace Dbee

/-! ## Values, rows, errors -/

/-- A column value of a row: Go's `any`, as delivered by the database driver. -/
inductive Value where
  | str (s : String)
  | int (i : Int)
  | bool (b : Bool)
  | null
  deriving DecidableEq, Repr

/-- A row is an ordered sequence of untyped column values (`[]any`). -/
abbrev Row := List Value

/-- Go `error` values that occur around the adapter.  `backend` is an error
raised by the database or the cursor, `wrap` is `fmt.Errorf(msg + "%w", inner)`,
and `malformedRow` is the error kind the specification calls `MalformedRow`. -/
inductive Error where
  | backend (msg : String)
  | wrap (msg : String) (inner : Error)
  | malformedRow
  deriving DecidableEq, Repr

/-- Run-time faults (Go panics) that the adapter's row decoding can raise:
an index expression out of range, or a failed single-value type assertion
`v.(string)`. -/
inductive Fault where
  | indexOutOfRange (index : Nat) (len : Nat)
  | typeAssertion (found : Value)
  deriving DecidableEq, Repr

/-- What a call produces: a value with a nil error, a non-nil error, or a panic. -/
inductive Outcome (α : Type) where
  | ok (a : α)
  | error (e : Error)
  | panic (f : Fault)
  deriving DecidableEq, Repr

/-! ## The result cursor -/

/-- One future answer of the cursor's `Next()`: a row, or a fetch failure. -/
inductive Fetch where
  | row (r : Row)
  | fail (msg : String)
  deriving DecidableEq, Repr

/-- Modelled from the spec: `core.ResultStream` is not among the sources.  It
is "a lazy, forward-only cursor over rows": `HasNext()` reports exhaustion and
`Next()` advances, failing when the underlying fetch fails.  The cursor is the
list of answers `Next()` has still to give. -/
structure ResultStream where
  pending : List Fetch
  deriving DecidableEq, Repr

/-- Cursor test `HasNext()`: true while an answer is pending. -/
def ResultStream.HasNext (rows : ResultStream) : Bool :=
  !rows.pending.isEmpty

/-- Go's `row[i]`: the element, or the index-out-of-range fault. -/
def index (row : Row) (i : Nat) : Except Fault Value :=
  match row.get? i with
  | some v => .ok v
  | none => .error (.indexOutOfRange i row.length)

/-- Go's `v.(string)`: the string, or the type-assertion fault. -/
def assertString : Value → Except Fault String
  | .str s => .ok s
  | v => .error (.typeAssertion v)

/-! ## The schema tree -/

/-- The node kinds, `core.StructureType`. -/
inductive StructureType where
  | StructureTypeNone
  | StructureTypeTable
  | StructureTypeView
  deriving DecidableEq, Repr

open StructureType

/-- The tree node `core.Structure` with its four fields `Name`, `Schema`,
`Type` and `Children`. -/
inductive Structure where
  | mk (Name : String) (Schema : String) (Type_ : StructureType)
      (Children : List Structure)
  deriving Repr

/-- Field `Name`. -/
def Structure.Name : Structure → String
  | .mk n _ _ _ => n

/-- Field `Schema`. -/
def Structure.Schema : Structure → String
  | .mk _ s _ _ => s

/-- Field `Type`. -/
def Structure.Type_ : Structure → StructureType
  | .mk _ _ t _ => t

/-- Field `Children`. -/
def Structure.Children : Structure → List Structure
  | .mk _ _ _ c => c

/-! ## Go maps -/

/-- The map `map[string][]*core.Structure` of `Structure()`, kept as its
entries in order of first insertion.  Go fixes no iteration order; see
`MapOrder`. -/
abbrev ChildMap := List (String × List Structure)

/-- Map read `children[k]`: the stored slice, or nil for an absent key. -/
def ChildMap.get : ChildMap → String → List Structure
  | [], _ => []
  | (k', v) :: m, k => if k' = k then v else ChildMap.get m k

/-- Map write `children[k] = v`: overwrite the entry, or add one. -/
def ChildMap.set : ChildMap → String → List Structure → ChildMap
  | [], k, v => [(k, v)]
  | (k', v') :: m, k, v =>
    if k' = k then (k, v) :: m else (k', v') :: ChildMap.set m k v

/-- The order in which one `for k, v := range children` visits the entries.
Go leaves it unspecified, so it is a parameter of the model: any rearrangement
of the entries. -/
structure MapOrder where
  order : ChildMap → ChildMap
  perm : ∀ m, (order m).Perm m

/-- Iteration in order of first insertion. -/
def MapOrder.insertion : MapOrder := ⟨fun m => m, fun _ => List.Perm.refl _⟩

/-- Iteration in reverse order of first insertion. -/
def MapOrder.reversed : MapOrder := ⟨List.reverse, fun m => List.reverse_perm m⟩

/-! ## The execution engine and its surroundings -/

/-- A live connection handle (`*sql.DB`), named by a number. -/
abbrev Handle := Nat

/-- A Go string as its bytes; used where `net/url` escapes and unescapes. -/
abbrev GoString := List (Fin 256)

/-- What the adapter is observed to do to its surroundings: a statement sent
over a handle, a statement sent over a handle together with values bound to
its parameters, a call `sql.Open(driverName, dataSourceName)`, a call of the
engine's `Swap`. -/
inductive Event where
  | exec (h : Handle) (query : String)
  | execBound (h : Handle) (query : String) (params : List String)
  | dial (driverName : String) (dataSourceName : GoString)
  | swap (h : Handle)
  deriving DecidableEq, Repr

/-! ## `net/url`: the stored connection target

Go's standard library is not part of the adapter; the functions the adapter
calls (`URL.Query`, `Values.Set`, `Values.Encode`) are written out here after
the library's text, over byte strings. -/

/-- The bytes of a string of ASCII characters. -/
def ascii (s : String) : GoString :=
  s.toList.map fun c => ⟨c.toNat % 256, Nat.mod_lt _ (by decide)⟩

/-- The type `url.Userinfo`: user name and optional password. -/
structure Userinfo where
  username : GoString
  password : GoString
  passwordSet : Bool
  deriving DecidableEq, Repr

/-- The struct `url.URL`, field by field. -/
structure URL where
  Scheme : GoString
  Opaque : GoString
  User : Option Userinfo
  Host : GoString
  Path : GoString
  RawPath : GoString
  OmitHost : Bool
  ForceQuery : Bool
  RawQuery : GoString
  Fragment : GoString
  RawFragment : GoString
  deriving DecidableEq, Repr

/-- The test `ishex`: is the byte a hexadecimal digit. -/
def ishex (c : Fin 256) : Bool :=
  (48 ≤ c.val && c.val ≤ 57) || (97 ≤ c.val && c.val ≤ 102) ||
    (65 ≤ c.val && c.val ≤ 70)

/-- The value `unhex` of a hexadecimal digit (0 for any other byte). -/
def unhex (c : Fin 256) : Nat :=
  if 48 ≤ c.val ∧ c.val ≤ 57 then c.val - 48
  else if 97 ≤ c.val ∧ c.val ≤ 102 then c.val - 97 + 10
  else if 65 ≤ c.val ∧ c.val ≤ 70 then c.val - 65 + 10
  else 0

/-- The table lookup `upperhex[n]` in "0123456789ABCDEF". -/
def upperhex (n : Nat) : Fin 256 :=
  ⟨(if n < 10 then 48 + n else 55 + n) % 256, Nat.mod_lt _ (by decide)⟩

/-- The predicate `shouldEscape(c, encodeQueryComponent)`: only letters, digits
and `-`, `_`, `.`, `~` pass unescaped. -/
def shouldEscape (c : Fin 256) : Bool :=
  if (97 ≤ c.val && c.val ≤ 122) || (65 ≤ c.val && c.val ≤ 90) ||
      (48 ≤ c.val && c.val ≤ 57) then false
  else if c.val = 45 || c.val = 95 || c.val = 46 || c.val = 126 then false
  else true

/-- The function `url.QueryEscape`: a space becomes `+`, an escaped byte
becomes `%XX` (`c>>4` is `c / 16` and `c&15` is `c % 16`), any other byte is
copied. -/
def QueryEscape : GoString → GoString
  | [] => []
  | c :: s =>
    if c.val = 32 then 43 :: QueryEscape s
    else if shouldEscape c then
      37 :: upperhex (c.val / 16) :: upperhex (c.val % 16) :: QueryEscape s
    else c :: QueryEscape s

/-- The function `url.QueryUnescape`: `%XX` becomes the byte
`unhex(X)<<4 | unhex(X)`, `+` becomes a space; a `%` not followed by two
hexadecimal digits is an error (`none`). -/
def QueryUnescape : GoString → Option GoString
  | [] => some []
  | c :: s =>
    if c.val = 37 then
      match s with
      | h1 :: h2 :: t =>
        if ishex h1 && ishex h2 then
          (QueryUnescape t).map fun r =>
            (⟨(unhex h1 * 16 + unhex h2) % 256, Nat.mod_lt _ (by decide)⟩ : Fin 256) :: r
        else none
      | _ => none
    else if c.val = 43 then (QueryUnescape s).map fun r => (32 : Fin 256) :: r
    else (QueryUnescape s).map fun r => c :: r

/-- The type `url.Values`, a `map[string][]string`, kept as its entries in
order of first insertion (`Encode` sorts the keys, so no iteration order is
observable here). -/
abbrev Values := List (GoString × List GoString)

/-- The two-value map read `vs, ok := v[k]`. -/
def Values.lookup : Values → GoString → Option (List GoString)
  | [], _ => none
  | (k', vs) :: m, k => if k' = k then some vs else Values.lookup m k

/-- Map read `v[k]`: nil for an absent key. -/
def Values.get (v : Values) (k : GoString) : List GoString :=
  (Values.lookup v k).getD []

/-- Map write `v[k] = vs`. -/
def Values.put : Values → GoString → List GoString → Values
  | [], k, vs => [(k, vs)]
  | (k', vs') :: m, k, vs =>
    if k' = k then (k, vs) :: m else (k', vs') :: Values.put m k vs

/-- The method `Values.Set`: `v[key] = []string{value}`. -/
def Values.Set (v : Values) (key value : GoString) : Values :=
  Values.put v key [value]

/-- The pieces of a query string between `&` separators; the loop of
`parseQuery` visits them from left to right by repeated
`strings.Cut(query, "&")`. -/
def splitAmp : GoString → List GoString
  | [] => [[]]
  | c :: s =>
    if c.val = 38 then [] :: splitAmp s
    else
      match splitAmp s with
      | [] => [[c]]
      | seg :: segs => (c :: seg) :: segs

/-- The call `strings.Cut(key, "=")`: the text before and after the first `=`. -/
def cutEq : GoString → GoString × GoString
  | [] => ([], [])
  | c :: s =>
    if c.val = 61 then ([], s)
    else ((cutEq s).1.cons c, (cutEq s).2)

/-- One turn of the loop in `parseQuery`: a piece holding `;`, an empty piece,
or a piece whose key or value does not unescape is skipped (`continue`); any
other piece appends its value to `m[key]`. -/
def parsePiece (m : Values) (piece : GoString) : Values :=
  if piece.any (fun c => c.val = 59) then m
  else if piece = [] then m
  else
    match QueryUnescape (cutEq piece).1 with
    | none => m
    | some key =>
      match QueryUnescape (cutEq piece).2 with
      | none => m
      | some value => Values.put m key (Values.get m key ++ [value])

/-- The function `parseQuery` started on an empty map; its error result is
left out because `URL.Query` discards it. -/
def parseQuery (query : GoString) : Values :=
  (splitAmp query).foldl parsePiece []

/-- The method `URL.Query`: `v, _ := ParseQuery(u.RawQuery)`. -/
def URL.Query (u : URL) : Values :=
  parseQuery u.RawQuery

/-- Byte-wise lexicographic comparison `a <= b` of Go strings. -/
def strLe : GoString → GoString → Bool
  | [], _ => true
  | _ :: _, [] => false
  | a :: s, b :: t => a.val < b.val || (a.val = b.val && strLe s t)

/-- The call `slices.Sort(keys)`. -/
def sortKeys (keys : List GoString) : List GoString :=
  keys.insertionSort fun a b => strLe a b = true

/-- The inner loop of `Values.Encode` over the values of one key, writing
`&` before every pair but the first of the buffer. -/
def encodeValues (keyEscaped : GoString) : List GoString → GoString → GoString
  | [], buf => buf
  | v :: vs, buf =>
    encodeValues keyEscaped vs
      ((if buf.length > 0 then buf ++ [38] else buf) ++ keyEscaped ++ [61] ++ QueryEscape v)

/-- The outer loop of `Values.Encode` over the sorted keys. -/
def encodeKeys (v : Values) : List GoString → GoString → GoString
  | [], buf => buf
  | k :: ks, buf => encodeKeys v ks (encodeValues (QueryEscape k) (Values.get v k) buf)

/-- The method `Values.Encode`: "URL encoded" form `bar=baz&foo=quux`, sorted
by key. -/
def Values.Encode (v : Values) : GoString :=
  if v.length = 0 then []
  else encodeKeys v (sortKeys (v.map Prod.fst)) []

/-! ## The driver -/

/-- Modelled from the spec: `builders.Client` is not among the sources.  The
execution engine "owns exactly one live connection handle at a time". -/
structure Client where
  db : Handle
  deriving DecidableEq, Repr

/-- The struct `sqlServerDriver`: the engine and the stored connection URL. -/
structure sqlServerDriver where
  c : Client
  url : URL
  deriving DecidableEq, Repr

/-- The driver together with what it acts on: the state of the database
servers and the record of what has been done to them so far. -/
structure System (σ : Type) where
  driver : sqlServerDriver
  server : σ
  trace : List Event

/-- The surroundings as parameters: how the servers answer a statement sent
over a handle (rows or a rejection, and the servers' next state), how they
answer a statement sent with values bound to its parameters, what
`sql.Open(driverName, dsn)` returns, and the text `URL.String()` renders. -/
structure Env (σ : Type) where
  exec : σ → Handle → String → Except String (List Fetch) × σ
  execBound : σ → Handle → String → List String → Except String (List Fetch) × σ
  sqlOpen : String → GoString → Except Error Handle
  urlString : URL → GoString

variable {σ : Type}

/-- Modelled from the spec: `builders.Client.Query` is not among the sources.
The engine "executes queries" on its live handle; a rejection by the backend
surfaces as an error. -/
def Client.Query (E : Env σ) (s : System σ) (query : String) :
    Outcome ResultStream × System σ :=
  match E.exec s.server s.driver.c.db query with
  | (.ok fs, w) =>
    (.ok ⟨fs⟩, { s with server := w, trace := s.trace ++ [.exec s.driver.c.db query] })
  | (.error msg, w) =>
    (.error (.backend msg),
      { s with server := w, trace := s.trace ++ [.exec s.driver.c.db query] })

/-- Modelled from the spec: `builders.Client.QueryUntilNotEmpty` is not among
the sources.  It "accepts an ordered list of candidate query texts; it
executes each in order and returns the first ResultStream that is non-empty
(`HasNext()` true) or, if all candidates return empty, the last candidate's
(possibly empty) stream"; a failure "surfaces to the immediate caller".  The
list is non-empty: a first candidate and the rest. -/
def Client.QueryUntilNotEmpty (E : Env σ) (s : System σ) :
    String → List String → Outcome ResultStream × System σ
  | query, [] => Client.Query E s query
  | query, next :: rest =>
    match Client.Query E s query with
    | (.ok rows, s') =>
      if rows.HasNext then (.ok rows, s')
      else Client.QueryUntilNotEmpty E s' next rest
    | (.error e, s') => (.error e, s')
    | (.panic f, s') => (.panic f, s')

/-- Modelled from the spec: `builders.Client.Swap` is not among the sources.
The handle "may be replaced wholesale by `Swap`". -/
def Client.Swap (s : System σ) (db : Handle) : System σ :=
  { s with driver := { s.driver with c := { db := db } }, trace := s.trace ++ [.swap db] }

/-- The fallback candidate of `Query`. -/
def rowsAffectedProbe : String := "select @@ROWCOUNT as 'Rows Affected'"

/-- The method `sqlServerDriver.Query`: run query, fallback to affected rows. -/
def sqlServerDriver.Query (E : Env σ) (s : System σ) (query : String) :
    Outcome ResultStream × System σ :=
  Client.QueryUntilNotEmpty E s query [rowsAffectedProbe]

/-- The metadata query of `Structure`. -/
def structureQuery : String :=
  "SELECT table_schema, table_name FROM INFORMATION_SCHEMA.TABLES\n\t\tUNION ALL\n\t\tSELECT SPECIFIC_SCHEMA, SPECIFIC_NAME from INFORMATION_SCHEMA.ROUTINES\n\t\twhere ROUTINE_TYPE in ('PROCEDURE', 'FUNCTION')\n\t"

/-- The first loop of `Structure`: `for rows.HasNext() { row, err := rows.Next() ... }`,
one turn per pending answer of the cursor. -/
def structureRows : List Fetch → ChildMap → Outcome ChildMap
  | [], children => .ok children
  | .fail msg :: _, _ => .error (.backend msg)
  | .row row :: rest, children =>
    match (index row 0).bind assertString with
    | .error f => .panic f
    | .ok schema =>
      match (index row 1).bind assertString with
      | .error f => .panic f
      | .ok table =>
        structureRows rest
          (children.set schema
            (children.get schema ++ [Structure.mk table schema StructureTypeTable []]))

/-- The second loop of `Structure`: one group node per map entry, in the order
the iteration visits them. -/
def structureLayout (o : MapOrder) (children : ChildMap) : List Structure :=
  (o.order children).map fun kv => Structure.mk kv.1 kv.1 StructureTypeNone kv.2

/-- The method `sqlServerDriver.Structure`. -/
def sqlServerDriver.Structure (E : Env σ) (o : MapOrder) (s : System σ) :
    Outcome (List Structure) × System σ :=
  match sqlServerDriver.Query E s structureQuery with
  | (.error e, s') => (.error e, s')
  | (.panic f, s') => (.panic f, s')
  | (.ok rows, s') =>
    match structureRows rows.pending [] with
    | .error e => (.error e, s')
    | .panic f => (.panic f, s')
    | .ok children => (.ok (structureLayout o children), s')

/-- The catalog query of `ListDatabases`. -/
def listDatabasesQuery : String :=
  "\n\t\tSELECT DB_NAME(), name\n\t\tFROM sys.databases\n\t\tWHERE name != DB_NAME();\n\t"

/-- The loop of `ListDatabases` over the pending answers of the cursor,
carrying the named results `current` and `available`. -/
def listDatabasesRows : List Fetch → String → List String → Outcome (String × List String)
  | [], current, available => .ok (current, available)
  | .fail msg :: _, _, _ => .error (.backend msg)
  | .row row :: rest, _, available =>
    match (index row 0).bind assertString with
    | .error f => .panic f
    | .ok current =>
      match (index row 1).bind assertString with
      | .error f => .panic f
      | .ok name => listDatabasesRows rest current (available ++ [name])

/-- The method `sqlServerDriver.ListDatabases`. -/
def sqlServerDriver.ListDatabases (E : Env σ) (s : System σ) :
    Outcome (String × List String) × System σ :=
  match sqlServerDriver.Query E s listDatabasesQuery with
  | (.error e, s') => (.error e, s')
  | (.panic f, s') => (.panic f, s')
  | (.ok rows, s') => (listDatabasesRows rows.pending "" [], s')

/-- The URL that `SelectDatabase(name)` stores and renders: the stored one with
`RawQuery` replaced by the re-encoded parameters. -/
def selectDatabaseURL (url : URL) (name : GoString) : URL :=
  { url with RawQuery := Values.Encode (Values.Set url.Query (ascii "database") name) }

/-- The method `sqlServerDriver.SelectDatabase`. -/
def sqlServerDriver.SelectDatabase (E : Env σ) (s : System σ) (name : GoString) :
    Outcome Unit × System σ :=
  let s1 : System σ :=
    { s with
      driver := { s.driver with url := selectDatabaseURL s.driver.url name }
      trace := s.trace ++ [.dial "sqlserver" (E.urlString (selectDatabaseURL s.driver.url name))] }
  match E.sqlOpen "sqlserver" (E.urlString s1.driver.url) with
  | .error err => (.error (.wrap "unable to switch databases: " err), s1)
  | .ok db => (.ok (), Client.Swap s1 db)

/-! ## Column introspection -/

/-- The struct `core.TableOptions`, as far as `Columns` reads it. -/
structure TableOptions where
  Table : String
  Schema : String
  deriving DecidableEq, Repr

/-- The struct `core.Column`. -/
structure Column where
  Name : String
  DataType : String
  deriving DecidableEq, Repr

/-- The SQL template that `Columns` hands to `ColumnsFromQuery`. -/
def columnsTemplate : String :=
  "\n\t\tSELECT\n\t\t\tcolumn_name,\n\t\t\tdata_type\n\t\tFROM information_schema.columns\n\t\t\tWHERE table_name='%s' AND\n\t\t\ttable_schema = '%s'"

/-- Modelled from the spec: the decoding of one metadata row inside
`ColumnsFromQuery` is not among the sources.  A row gives a
`Column {Name, DataType}`; a row that "does not decode into the expected
two-string shape" is a `MalformedRow`. -/
def columnOfRow : Row → Except Error Column
  | [.str name, .str dataType] => .ok ⟨name, dataType⟩
  | _ => .error .malformedRow

/-- Modelled from the spec: the rows of a column query, decoded in order
("one per queried table column, order = declaration order"). -/
def columnsOfRows : List Fetch → Outcome (List Column)
  | [] => .ok []
  | .fail msg :: _ => .error (.backend msg)
  | .row row :: rest =>
    match columnOfRow row with
    | .error e => .error e
    | .ok col =>
      match columnsOfRows rest with
      | .ok cols => .ok (col :: cols)
      | .error e => .error e
      | .panic f => .panic f

/-- Modelled from the spec: `builders.Client.ColumnsFromQuery` is not among the
sources.  Section 6 of the spec: the identifiers supplied to `Columns` are
"bound as query parameters, never interpolated directly into SQL text".  So
the engine sends the query text as it was handed over, with the further
arguments bound to its parameters, and decodes the rows that come back, "one
per queried table column". -/
def Client.ColumnsFromQuery (E : Env σ) (s : System σ) (query : String)
    (args : List String) : Outcome (List Column) × System σ :=
  match E.execBound s.server s.driver.c.db query args with
  | (.error msg, w) =>
    (.error (.backend msg),
      { s with server := w, trace := s.trace ++ [.execBound s.driver.c.db query args] })
  | (.ok fs, w) =>
    (columnsOfRows fs,
      { s with server := w, trace := s.trace ++ [.execBound s.driver.c.db query args] })

/-- The method `sqlServerDriver.Columns`. -/
def sqlServerDriver.Columns (E : Env σ) (s : System σ) (opts : TableOptions) :
    Outcome (List Column) × System σ :=
  Client.ColumnsFromQuery E s columnsTemplate [opts.Table, opts.Schema]

/-! ## Reference notions for the statements -/

/-- A well-formed introspection row: the answer of the cursor that decodes as
the pair `(schema, name)`. -/
def leafRow (r : String × String) : Fetch :=
  .row [.str r.1, .str r.2]

/-- The leaf node that `Structure` builds for the pair `(schema, name)`. -/
def leafOf (r : String × String) : Structure :=
  Structure.mk r.2 r.1 StructureTypeTable []

/-- The child map after the pairs `rows` have been filed one after another,
starting from `m`. -/
def groupRows (rows : List (String × String)) (m : ChildMap) : ChildMap :=
  rows.foldl (fun m r => m.set r.1 (m.get r.1 ++ [leafOf r])) m

/-- The group nodes for the pairs `rows`, one per distinct schema, each with
the leaves of the rows of its schema in row order.  The order of the groups
in this list carries no meaning. -/
def schemaGroups (rows : List (String × String)) : List Structure :=
  (rows.map Prod.fst).dedup.map fun k =>
    Structure.mk k k StructureTypeNone ((rows.filter fun r => r.1 = k).map leafOf)

/-- The SQL text of a statement that was sent, if the event is one. -/
def Event.statement : Event → Option String
  | .exec _ query => some query
  | .execBound _ query _ => some query
  | _ => none

/-- The number of leaves of a forest: the children of all its top-level nodes. -/
def leafCount (layout : List Structure) : Nat :=
  (layout.map fun g => g.Children.length).sum

/-- A row is of the expected shape when it decodes as two strings (further
columns are never read). -/
def Row.wellShaped : Row → Bool
  | .str _ :: .str _ :: _ => true
  | _ => false

/-- The text that `Encode` writes for one key and value. -/
def encodePair (p : GoString × GoString) : GoString :=
  QueryEscape p.1 ++ [61] ++ QueryEscape p.2

/-- The buffer of `Encode` after the pieces `segs` have been written onto
`buf`, each preceded by `&` unless the buffer was empty. -/
def joinOnto (buf : GoString) : List GoString → GoString
  | [] => buf
  | seg :: segs => joinOnto ((if buf.length > 0 then buf ++ [38] else buf) ++ seg) segs

/-- What a well-formed piece `key=value` does to the map of `parseQuery`:
`m[key] = append(m[key], value)`. -/
def addPair (m : Values) (p : GoString × GoString) : Values :=
  Values.put m p.1 (Values.get m p.1 ++ [p.2])

/-- The key-value pairs of a map, key by key in the order `keys`. -/
def pairsOf (v : Values) (keys : List GoString) : List (GoString × GoString) :=
  keys.flatMap fun k => (Values.get v k).map fun x => (k, x)

/-! ## Worked instances -/

/-- A server without state that answers every statement by `answers`; no new
connection can be opened, and a URL is rendered as
`scheme://host/path?rawquery`. -/
def serverOf (answers : String → Except String (List Fetch)) : Env Unit where
  exec := fun _ _ q => (answers q, ())
  execBound := fun _ _ q _ => (answers q, ())
  sqlOpen := fun _ _ => .error (.backend "login failed")
  urlString := fun u => u.Scheme ++ ascii "://" ++ u.Host ++ u.Path ++ ascii "?" ++ u.RawQuery

/-- A URL with the given host and raw query and scheme `sqlserver`. -/
def urlOf (host rawQuery : String) : URL where
  Scheme := ascii "sqlserver"
  Opaque := []
  User := none
  Host := ascii host
  Path := []
  RawPath := []
  OmitHost := false
  ForceQuery := false
  RawQuery := ascii rawQuery
  Fragment := []
  RawFragment := []

/-- A driver holding handle 1 and the URL `sqlserver://localhost?database=master`,
with nothing done so far. -/
def exampleSystem : System Unit where
  driver := ⟨⟨1⟩, urlOf "localhost" "database=master"⟩
  server := ()
  trace := []

/-- The rows of the specification's example. -/
def exampleRows : List (String × String) :=
  [("dbo", "Users"), ("dbo", "Orders"), ("sales", "Invoices")]

/-- A server whose metadata query yields the rows of the example. -/
def exampleServer : Env Unit :=
  serverOf fun q =>
    if q = structureQuery then .ok (exampleRows.map leafRow)
    else if q = "select @@ROWCOUNT as 'Rows Affected'" then .ok [.row [.int 0]]
    else .ok []

/-- The forest that the specification's example expects for `exampleRows`. -/
def exampleForestSorted : List Structure :=
  [Structure.mk "dbo" "dbo" StructureTypeNone
      [Structure.mk "Orders" "dbo" StructureTypeTable [],
       Structure.mk "Users" "dbo" StructureTypeTable []],
   Structure.mk "sales" "sales" StructureTypeNone
      [Structure.mk "Invoices" "sales" StructureTypeTable []]]

/-- The forest for `exampleRows` with the groups in order of first appearance
and the children in row order. -/
def exampleForestRowOrder : List Structure :=
  [Structure.mk "dbo" "dbo" StructureTypeNone
      [Structure.mk "Users" "dbo" StructureTypeTable [],
       Structure.mk "Orders" "dbo" StructureTypeTable []],
   Structure.mk "sales" "sales" StructureTypeNone
      [Structure.mk "Invoices" "sales" StructureTypeTable []]]

/-- A server whose metadata query yields one good row and then a row with a
single column. -/
def shortRowServer : Env Unit :=
  serverOf fun q =>
    if q = structureQuery then .ok [leafRow ("dbo", "Users"), .row [.str "dbo"]]
    else .ok []

/-- A server for a database without tables and routines: the metadata query
yields no row, and the rows-affected probe yields its one row with one integer
column. -/
def emptyDatabaseServer : Env Unit :=
  serverOf fun q =>
    if q = "SELECT table_schema, table_name FROM INFORMATION_SCHEMA.TABLES\n\t\tUNION ALL\n\t\tSELECT SPECIFIC_SCHEMA, SPECIFIC_NAME from INFORMATION_SCHEMA.ROUTINES\n\t\twhere ROUTINE_TYPE in ('PROCEDURE', 'FUNCTION')\n\t"
    then .ok []
    else if q = "select @@ROWCOUNT as 'Rows Affected'" then .ok [.row [.int 0]]
    else .ok []

/-- A server on which the current database is the only one the catalog query
can see: the catalog query yields no row, and the rows-affected probe yields
its one row with one integer column. -/
def loneDatabaseServer : Env Unit :=
  serverOf fun q =>
    if q = "\n\t\tSELECT DB_NAME(), name\n\t\tFROM sys.databases\n\t\tWHERE name != DB_NAME();\n\t"
    then .ok []
    else if q = "select @@ROWCOUNT as 'Rows Affected'" then .ok [.row [.int 0]]
    else .ok []

/-- A server that answers every statement, the probe included, with no row. -/
def silentServer : Env Unit :=
  serverOf fun _ => .ok []

/-- A server with the current database `master` and two others. -/
def threeDatabaseServer : Env Unit :=
  serverOf fun q =>
    if q = listDatabasesQuery then
      .ok [.row [.str "master", .str "tempdb"], .row [.str "master", .str "sales"]]
    else if q = "select @@ROWCOUNT as 'Rows Affected'" then .ok [.row [.int 0]]
    else .ok []

/-- A server on which an update statement yields no row and the probe reports
the rows it affected. -/
def updateServer : Env Unit :=
  serverOf fun q =>
    if q = "select @@ROWCOUNT as 'Rows Affected'" then .ok [.row [.int 3]]
    else .ok []

/-- The statement used with `updateServer`. -/
def updateStatement : String := "UPDATE t SET x = 1"

/-- Table options naming the table `Users` of schema `dbo`. -/
def plainOptions : TableOptions := ⟨"Users", "dbo"⟩

/-- Table options whose table name holds single quotes. -/
def quoteOptions : TableOptions := ⟨"x' OR '1'='1", "dbo"⟩

/-! ## The child map -/

theorem ChildMap.get_set (m : ChildMap) (k k' : String) (v : List Structure) :
    ChildMap.get (ChildMap.set m k v) k' = if k = k' then v else ChildMap.get m k' := by
  induction m with
  | nil => simp [ChildMap.set, ChildMap.get]
  | cons kv m ih =>
    obtain ⟨a, b⟩ := kv
    by_cases hak : a = k
    · subst hak
      by_cases hak' : a = k' <;> simp [ChildMap.set, ChildMap.get, hak']
    · by_cases hak' : a = k'
      · subst hak'
        have : ¬ k = a := fun h => hak h.symm
        simp [ChildMap.set, ChildMap.get, hak, this]
      · simp [ChildMap.set, ChildMap.get, hak, hak', ih]

theorem ChildMap.keys_set (m : ChildMap) (k : String) (v : List Structure) :
    (ChildMap.set m k v).map Prod.fst =
      if k ∈ m.map Prod.fst then m.map Prod.fst else m.map Prod.fst ++ [k] := by
  induction m with
  | nil => simp [ChildMap.set]
  | cons kv m ih =>
    obtain ⟨a, b⟩ := kv
    by_cases hak : a = k
    · subst hak
      simp [ChildMap.set]
    · have hka : ¬ k = a := fun h => hak h.symm
      simp only [ChildMap.set, hak, if_false, List.map_cons, ih, List.mem_cons, hka, false_or]
      split <;> simp

theorem ChildMap.mem_set {m : ChildMap} {k : String} {v : List Structure}
    {kv : String × List Structure} (h : kv ∈ ChildMap.set m k v) : kv = (k, v) ∨ kv ∈ m := by
  induction m with
  | nil => simpa [ChildMap.set] using h
  | cons e m ih =>
    obtain ⟨a, b⟩ := e
    by_cases hak : a = k
    · simp only [ChildMap.set, hak, if_true, List.mem_cons] at h
      rcases h with h | h
      · exact Or.inl h
      · exact Or.inr (List.mem_cons_of_mem _ h)
    · simp only [ChildMap.set, hak, if_false, List.mem_cons] at h
      rcases h with h | h
      · exact Or.inr (h ▸ List.mem_cons_self _ _)
      · rcases ih h with h' | h'
        · exact Or.inl h'
        · exact Or.inr (List.mem_cons_of_mem _ h')

theorem ChildMap.get_of_mem {m : ChildMap} (hnd : (m.map Prod.fst).Nodup)
    {kv : String × List Structure} (h : kv ∈ m) : ChildMap.get m kv.1 = kv.2 := by
  induction m with
  | nil => cases h
  | cons e m ih =>
    obtain ⟨a, b⟩ := e
    simp only [List.map_cons, List.nodup_cons] at hnd
    rcases List.mem_cons.1 h with h | h
    · subst h
      simp [ChildMap.get]
    · have hne : a ≠ kv.1 := by
        intro hak
        exact hnd.1 (hak ▸ List.mem_map_of_mem Prod.fst h)
      simp [ChildMap.get, hne, ih hnd.2 h]

theorem ChildMap.mem_of_get {m : ChildMap} {k : String} {l : Structure}
    (h : l ∈ ChildMap.get m k) : ∃ kv ∈ m, kv.1 = k ∧ l ∈ kv.2 := by
  induction m with
  | nil => simp [ChildMap.get] at h
  | cons e m ih =>
    obtain ⟨a, b⟩ := e
    by_cases hak : a = k
    · simp only [ChildMap.get, hak, if_true] at h
      exact ⟨(a, b), List.mem_cons_self _ _, hak, h⟩
    · simp only [ChildMap.get, hak, if_false] at h
      obtain ⟨kv, hkv, h1, h2⟩ := ih h
      exact ⟨kv, List.mem_cons_of_mem _ hkv, h1, h2⟩

theorem ChildMap.total_set (m : ChildMap) (k : String) (x : Structure) :
    ((ChildMap.set m k (ChildMap.get m k ++ [x])).map fun kv => kv.2.length).sum =
      (m.map fun kv => kv.2.length).sum + 1 := by
  induction m with
  | nil => simp [ChildMap.set, ChildMap.get]
  | cons e m ih =>
    obtain ⟨a, b⟩ := e
    by_cases hak : a = k
    · simp [ChildMap.set, ChildMap.get, hak]
      omega
    · simp [ChildMap.set, ChildMap.get, hak, ih]
      omega

/-! ## Filing well-formed rows -/

theorem structureRows_leafRows (rows : List (String × String)) (m : ChildMap) :
    structureRows (rows.map leafRow) m = .ok (groupRows rows m) := by
  induction rows generalizing m with
  | nil => rfl
  | cons r rows ih =>
    simp only [List.map_cons, leafRow, structureRows, index, List.get?, assertString,
      Except.bind, groupRows, List.foldl_cons]
    exact ih _

theorem groupRows_keys_nodup (rows : List (String × String)) (m : ChildMap)
    (h : (m.map Prod.fst).Nodup) : ((groupRows rows m).map Prod.fst).Nodup := by
  induction rows generalizing m with
  | nil => exact h
  | cons r rows ih =>
    apply ih
    rw [ChildMap.keys_set]
    split
    · exact h
    · rename_i hk
      exact List.Nodup.append h (List.nodup_singleton _) (by simpa using hk)

theorem groupRows_keys (rows : List (String × String)) (m : ChildMap) (k : String) :
    k ∈ (groupRows rows m).map Prod.fst ↔ k ∈ m.map Prod.fst ∨ k ∈ rows.map Prod.fst := by
  induction rows generalizing m with
  | nil => simp [groupRows]
  | cons r rows ih =>
    have := ih (m.set r.1 (m.get r.1 ++ [leafOf r]))
    simp only [groupRows, List.foldl_cons] at this ⊢
    rw [this, ChildMap.keys_set]
    split
    · rename_i hk
      simp only [List.map_cons, List.mem_cons]
      constructor
      · rintro (h | h)
        · exact Or.inl h
        · exact Or.inr (Or.inr h)
      · rintro (h | h | h)
        · exact Or.inl h
        · exact Or.inl (h ▸ hk)
        · exact Or.inr h
    · simp only [List.mem_append, List.mem_singleton, List.map_cons, List.mem_cons]
      tauto

theorem groupRows_get (rows : List (String × String)) (m : ChildMap) (k : String) :
    ChildMap.get (groupRows rows m) k =
      ChildMap.get m k ++ (rows.filter fun r => r.1 = k).map leafOf := by
  induction rows generalizing m with
  | nil => simp [groupRows]
  | cons r rows ih =>
    have := ih (m.set r.1 (m.get r.1 ++ [leafOf r]))
    simp only [groupRows, List.foldl_cons] at this ⊢
    rw [this, ChildMap.get_set]
    by_cases hk : r.1 = k
    · simp [hk, List.filter_cons]
    · simp [hk, List.filter_cons]

theorem groupRows_total (rows : List (String × String)) (m : ChildMap) :
    ((groupRows rows m).map fun kv => kv.2.length).sum =
      (m.map fun kv => kv.2.length).sum + rows.length := by
  induction rows generalizing m with
  | nil => simp [groupRows]
  | cons r rows ih =>
    have := ih (m.set r.1 (m.get r.1 ++ [leafOf r]))
    simp only [groupRows, List.foldl_cons] at this ⊢
    rw [this, ChildMap.total_set]
    simp only [List.length_cons]
    omega

/-! ## `Structure` -/

theorem Structure_of_query (E : Env σ) (o : MapOrder) (s : System σ) (rows : ResultStream)
    (h : (sqlServerDriver.Query E s structureQuery).1 = .ok rows) :
    (sqlServerDriver.Structure E o s).1 =
      match structureRows rows.pending [] with
      | .ok children => .ok (structureLayout o children)
      | .error e => .error e
      | .panic f => .panic f := by
  unfold sqlServerDriver.Structure
  rcases hq : sqlServerDriver.Query E s structureQuery with ⟨r, s'⟩
  rw [hq] at h
  simp only at h
  subst h
  simp only
  cases structureRows rows.pending [] <;> rfl

theorem mem_structureLayout {o : MapOrder} {children : ChildMap} {g : Structure} :
    g ∈ structureLayout o children ↔
      ∃ kv ∈ children, g = Structure.mk kv.1 kv.1 StructureTypeNone kv.2 := by
  simp only [structureLayout, List.mem_map, (o.perm children).mem_iff]
  constructor
  · rintro ⟨kv, h, rfl⟩
    exact ⟨kv, h, rfl⟩
  · rintro ⟨kv, h, rfl⟩
    exact ⟨kv, h, rfl⟩

theorem structureLayout_schemas (o : MapOrder) (children : ChildMap) :
    ((structureLayout o children).map Structure.Schema).Perm (children.map Prod.fst) := by
  have h : (structureLayout o children).map Structure.Schema =
      (o.order children).map Prod.fst := by
    simp [structureLayout, Structure.Schema, Function.comp_def]
  rw [h]
  exact (o.perm children).map _

theorem structureLayout_leafCount (o : MapOrder) (children : ChildMap) :
    leafCount (structureLayout o children) = (children.map fun kv => kv.2.length).sum := by
  have h : (structureLayout o children).map (fun g => g.Children.length) =
      (o.order children).map fun kv => kv.2.length := by
    simp [structureLayout, Structure.Children, Function.comp_def]
  rw [leafCount, h]
  exact ((o.perm children).map _).sum_eq

theorem Query_of_nonempty_answer (E : Env σ) (s : System σ) (q : String) (fs : List Fetch)
    (w : σ) (h : E.exec s.server s.driver.c.db q = (.ok fs, w)) (hne : fs ≠ []) :
    (sqlServerDriver.Query E s q).1 = .ok ⟨fs⟩ := by
  cases fs with
  | nil => exact absurd rfl hne
  | cons f fs =>
    simp [sqlServerDriver.Query, Client.QueryUntilNotEmpty, Client.Query, h,
      ResultStream.HasNext]

/-- C1 at its failing input, the empty sequence of introspection rows: on a
database without tables and routines the metadata query yields no row and no
error, `Query` falls back to the rows-affected probe, the row loop of
`Structure` reads the probe's integer column, and `Structure` faults instead
of returning the empty forest. -/
theorem Structure_empty_database :
    (emptyDatabaseServer.exec exampleSystem.server exampleSystem.driver.c.db
        structureQuery).1 = .ok ([] : List Fetch) ∧
      (sqlServerDriver.Query emptyDatabaseServer exampleSystem structureQuery).1
        = .ok ⟨[.row [.int 0]]⟩ ∧
      (sqlServerDriver.Structure emptyDatabaseServer MapOrder.insertion exampleSystem).1
        = .panic (.typeAssertion (.int 0)) ∧
      (sqlServerDriver.Structure emptyDatabaseServer MapOrder.insertion exampleSystem).1
        ≠ .ok [] := by
  refine ⟨rfl, by decide, rfl, ?_⟩
  intro h
  have h' : (Outcome.panic (.typeAssertion (.int 0)) : Outcome (List Structure)) = .ok [] := h
  exact Outcome.noConfusion h'

theorem structureRows_append (pre : List (String × String)) (fs : List Fetch) (m : ChildMap) :
    structureRows (pre.map leafRow ++ fs) m = structureRows fs (groupRows pre m) := by
  induction pre generalizing m with
  | nil => rfl
  | cons r pre ih =>
    simp only [List.map_cons, List.cons_append, leafRow, structureRows, index, List.get?,
      assertString, Except.bind, groupRows, List.foldl_cons]
    exact ih _

theorem structureRows_bad_row (bad : Row) (rest : List Fetch) (m : ChildMap)
    (hbad : bad.wellShaped = false) : ∃ f, structureRows (.row bad :: rest) m = .panic f := by
  match bad, hbad with
  | [], _ => exact ⟨_, rfl⟩
  | [.str _], _ => exact ⟨_, rfl⟩
  | .int _ :: _, _ => exact ⟨_, rfl⟩
  | .bool _ :: _, _ => exact ⟨_, rfl⟩
  | .null :: _, _ => exact ⟨_, rfl⟩
  | .str _ :: .int _ :: _, _ => exact ⟨_, rfl⟩
  | .str _ :: .bool _ :: _, _ => exact ⟨_, rfl⟩
  | .str _ :: .null :: _, _ => exact ⟨_, rfl⟩

theorem Structure_of_leafRows (E : Env σ) (o : MapOrder) (s : System σ)
    (rows : List (String × String))
    (h : (sqlServerDriver.Query E s structureQuery).1 = .ok ⟨rows.map leafRow⟩) :
    (sqlServerDriver.Structure E o s).1 = .ok (structureLayout o (groupRows rows [])) := by
  rw [Structure_of_query E o s _ h]
  simp only [structureRows_leafRows]

theorem structureLayout_children {o : MapOrder} {rows : List (String × String)}
    {g : Structure} (hg : g ∈ structureLayout o (groupRows rows [])) :
    g.Children = (rows.filter fun r => r.1 = g.Schema).map leafOf := by
  obtain ⟨kv, hkv, rfl⟩ := mem_structureLayout.1 hg
  have := ChildMap.get_of_mem (groupRows_keys_nodup rows [] List.nodup_nil) hkv
  rw [groupRows_get] at this
  simpa [Structure.Children, Structure.Schema, ChildMap.get] using this.symm

/-- When the cursor that `Query` hands to `Structure` yields the well-formed
rows `rows` and no error, `Structure` returns a forest without error; the
forest has one group node per distinct schema of the rows, every group's
children are the leaves of exactly the rows of its schema, every leaf has its
group's schema and lies under no other group, and the number of leaves is the
number of rows. -/
theorem Structure_groups_rows (E : Env σ) (o : MapOrder) (s : System σ)
    (rows : List (String × String))
    (h : (sqlServerDriver.Query E s structureQuery).1 = .ok ⟨rows.map leafRow⟩) :
    ∃ layout, (sqlServerDriver.Structure E o s).1 = .ok layout ∧
      (layout.map Structure.Schema).Nodup ∧
      (∀ k, k ∈ layout.map Structure.Schema ↔ k ∈ rows.map Prod.fst) ∧
      (∀ g ∈ layout, g.Children = (rows.filter fun r => r.1 = g.Schema).map leafOf) ∧
      (∀ g ∈ layout, ∀ l ∈ g.Children, l.Schema = g.Schema) ∧
      (∀ g ∈ layout, ∀ g' ∈ layout, ∀ l, l ∈ g.Children → l ∈ g'.Children → g = g') ∧
      leafCount layout = rows.length := by
  have hnd : ((groupRows rows []).map Prod.fst).Nodup :=
    groupRows_keys_nodup rows [] List.nodup_nil
  have hperm := structureLayout_schemas o (groupRows rows [])
  have hchildren : ∀ g ∈ structureLayout o (groupRows rows []),
      g.Children = (rows.filter fun r => r.1 = g.Schema).map leafOf := by
    intro g hg
    obtain ⟨kv, hkv, rfl⟩ := mem_structureLayout.1 hg
    have := ChildMap.get_of_mem hnd hkv
    rw [groupRows_get] at this
    simpa [Structure.Children, Structure.Schema, ChildMap.get] using this.symm
  have hschema : ∀ g ∈ structureLayout o (groupRows rows []), ∀ l ∈ g.Children,
      l.Schema = g.Schema := by
    intro g hg l hl
    rw [hchildren g hg] at hl
    obtain ⟨r, hr, rfl⟩ := List.mem_map.1 hl
    simpa [leafOf, Structure.Schema] using (List.mem_filter.1 hr).2
  refine ⟨structureLayout o (groupRows rows []), ?_, hperm.nodup_iff.2 hnd, ?_, hchildren,
    hschema, ?_, ?_⟩
  · rw [Structure_of_query E o s _ h]
    simp only [structureRows_leafRows]
  · intro k
    rw [hperm.mem_iff, groupRows_keys]
    simp
  · intro g hg g' hg' l hl hl'
    have hs : g.Schema = g'.Schema := (hschema g hg l hl).symm.trans (hschema g' hg' l hl')
    have hc : g.Children = g'.Children := by rw [hchildren g hg, hchildren g' hg', hs]
    obtain ⟨kv, _, rfl⟩ := mem_structureLayout.1 hg
    obtain ⟨kv', _, rfl⟩ := mem_structureLayout.1 hg'
    simp only [Structure.Schema] at hs
    simp only [Structure.Children] at hc
    rw [hs, hc]
  · rw [structureLayout_leafCount, groupRows_total]
    simp

/-- For a metadata query that yields at least one row, all of them
well-formed, and no error: the forest of `Structure` has one group node per
distinct schema, the leaves of each schema under its group, and as many leaves
as there are rows. -/
theorem Structure_groups_answer (E : Env σ) (o : MapOrder) (s : System σ)
    (rows : List (String × String)) (w : σ) (hne : rows ≠ [])
    (h : E.exec s.server s.driver.c.db structureQuery = (.ok (rows.map leafRow), w)) :
    ∃ layout, (sqlServerDriver.Structure E o s).1 = .ok layout ∧
      (layout.map Structure.Schema).Nodup ∧
      (∀ k, k ∈ layout.map Structure.Schema ↔ k ∈ rows.map Prod.fst) ∧
      (∀ g ∈ layout, g.Children = (rows.filter fun r => r.1 = g.Schema).map leafOf) ∧
      (∀ g ∈ layout, ∀ l ∈ g.Children, l.Schema = g.Schema) ∧
      (∀ g ∈ layout, ∀ g' ∈ layout, ∀ l, l ∈ g.Children → l ∈ g'.Children → g = g') ∧
      leafCount layout = rows.length :=
  Structure_groups_rows E o s rows
    (Query_of_nonempty_answer E s structureQuery _ w h (by simpa using hne))

/-- C9: every forest that `Structure` returns without error is two levels
deep and well-formed: a top-level node has type `None`, its name is its
schema, and it has at least one child; a child has type `Table`, no children
of its own, and its parent's schema. -/
theorem Structure_node_invariant (E : Env σ) (o : MapOrder) (s : System σ)
    (layout : List Structure)
    (h : (sqlServerDriver.Structure E o s).1 = .ok layout) :
    ∀ g ∈ layout, g.Type_ = StructureTypeNone ∧ g.Name = g.Schema ∧ g.Children ≠ [] ∧
      ∀ l ∈ g.Children,
        l.Type_ = StructureTypeTable ∧ l.Children = [] ∧ l.Schema = g.Schema := by
  have key : ∀ (fs : List Fetch) (m m' : ChildMap),
      (∀ kv ∈ m, kv.2 ≠ [] ∧ ∀ l ∈ kv.2,
        l.Type_ = StructureTypeTable ∧ l.Children = [] ∧ l.Schema = kv.1) →
      structureRows fs m = .ok m' →
      ∀ kv ∈ m', kv.2 ≠ [] ∧ ∀ l ∈ kv.2,
        l.Type_ = StructureTypeTable ∧ l.Children = [] ∧ l.Schema = kv.1 := by
    intro fs
    induction fs with
    | nil =>
      intro m m' hm hrun
      simp only [structureRows, Outcome.ok.injEq] at hrun
      exact hrun ▸ hm
    | cons f fs ih =>
      intro m m' hm hrun
      cases f with
      | fail msg => simp [structureRows] at hrun
      | row row =>
        simp only [structureRows] at hrun
        split at hrun
        · cases hrun
        · split at hrun
          · cases hrun
          · rename_i schema _ table _
            refine ih _ m' ?_ hrun
            intro kv hkv
            rcases ChildMap.mem_set hkv with hnew | hold
            · subst hnew
              refine ⟨by simp, ?_⟩
              intro l hl
              rcases List.mem_append.1 hl with hl | hl
              · obtain ⟨kv', hkv', hk, hmem⟩ := ChildMap.mem_of_get hl
                have := (hm kv' hkv').2 l hmem
                exact ⟨this.1, this.2.1, this.2.2.trans hk⟩
              · rw [List.mem_singleton.1 hl]
                exact ⟨rfl, rfl, rfl⟩
            · exact hm kv hold
  unfold sqlServerDriver.Structure at h
  split at h
  · cases h
  · cases h
  · rename_i rows s' _
    split at h
    · cases h
    · cases h
    · rename_i children hrun
      simp only [Outcome.ok.injEq] at h
      subst h
      intro g hg
      obtain ⟨kv, hkv, rfl⟩ := mem_structureLayout.1 hg
      have := key rows.pending [] children (by simp) hrun kv hkv
      exact ⟨rfl, rfl, this.1, this.2⟩

/-- The instance of C9 at the rows of the specification's example. -/
theorem Structure_node_invariant_example :
    (sqlServerDriver.Structure exampleServer MapOrder.insertion exampleSystem).1
        = .ok exampleForestRowOrder ∧
      ∀ g ∈ exampleForestRowOrder,
        g.Type_ = StructureTypeNone ∧ g.Name = g.Schema ∧ g.Children ≠ [] ∧
        ∀ l ∈ g.Children,
          l.Type_ = StructureTypeTable ∧ l.Children = [] ∧ l.Schema = g.Schema :=
  ⟨rfl, Structure_node_invariant exampleServer MapOrder.insertion exampleSystem
    exampleForestRowOrder rfl⟩

/-- C2, as the claim states it, fails: on the rows of the specification's
example the forest comes back with the children of `dbo` in row order,
`[Users, Orders]`; a run that iterates the map the other way round returns the
groups in the other order, so two runs need not return the same forest; and
under no iteration order of the map is the result the sorted forest
`[dbo:[Orders, Users], sales:[Invoices]]`. -/
theorem Structure_example_not_sorted :
    (sqlServerDriver.Structure exampleServer MapOrder.insertion exampleSystem).1
        = .ok exampleForestRowOrder ∧
      (sqlServerDriver.Structure exampleServer MapOrder.reversed exampleSystem).1
        = .ok exampleForestRowOrder.reverse ∧
      exampleForestRowOrder.reverse ≠ exampleForestRowOrder ∧
      ¬ ∃ o : MapOrder,
        (sqlServerDriver.Structure exampleServer o exampleSystem).1
          = .ok exampleForestSorted := by
  refine ⟨rfl, rfl, ?_, ?_⟩
  · simp [exampleForestRowOrder]
  rintro ⟨o, h⟩
  rw [Structure_of_leafRows exampleServer o exampleSystem exampleRows (by decide)] at h
  simp only [Outcome.ok.injEq] at h
  have hmem : Structure.mk "dbo" "dbo" StructureTypeNone
      [Structure.mk "Orders" "dbo" StructureTypeTable [],
       Structure.mk "Users" "dbo" StructureTypeTable []]
        ∈ structureLayout o (groupRows exampleRows []) := by
    rw [h]
    exact List.mem_cons_self _ _
  have hc := structureLayout_children hmem
  simp [Structure.Children, Structure.Schema, exampleRows, leafOf, List.filter] at hc

theorem structureLayout_perm_schemaGroups (o : MapOrder) (rows : List (String × String)) :
    (structureLayout o (groupRows rows [])).Perm (schemaGroups rows) := by
  have hnd : ((groupRows rows []).map Prod.fst).Nodup :=
    groupRows_keys_nodup rows [] List.nodup_nil
  have hkeys : ((groupRows rows []).map Prod.fst).Perm (rows.map Prod.fst).dedup := by
    refine (List.perm_ext_iff_of_nodup hnd (List.nodup_dedup _)).2 fun k => ?_
    rw [groupRows_keys, List.mem_dedup]
    simp
  have hentries : (groupRows rows []).map
        (fun kv => Structure.mk kv.1 kv.1 StructureTypeNone kv.2)
      = ((groupRows rows []).map Prod.fst).map fun k =>
          Structure.mk k k StructureTypeNone ((rows.filter fun r => r.1 = k).map leafOf) := by
    rw [List.map_map]
    apply List.map_congr_left
    intro kv hkv
    have := ChildMap.get_of_mem hnd hkv
    rw [groupRows_get] at this
    simp only [Function.comp_apply]
    rw [← this]
    simp [ChildMap.get]
  unfold structureLayout schemaGroups
  exact ((o.perm _).map _).trans (hentries ▸ hkeys.map _)

/-- C2, amended: for every non-empty sequence of well-formed rows that the
metadata query yields, `Structure` returns, on every run, the group nodes of
`schemaGroups`: one group node per distinct schema, whose children are the
leaves of the rows of that schema in row order (not sorted by name).  The
groups come in the order in which the map happens to be iterated (not sorted),
so two runs return the same groups, possibly in another order. -/
theorem Structure_same_groups_row_order (E : Env σ) (o o' : MapOrder) (s : System σ)
    (rows : List (String × String)) (w : σ) (hne : rows ≠ [])
    (h : E.exec s.server s.driver.c.db structureQuery = (.ok (rows.map leafRow), w)) :
    ∃ layout layout', (sqlServerDriver.Structure E o s).1 = .ok layout ∧
      (sqlServerDriver.Structure E o' s).1 = .ok layout' ∧
      layout.Perm (schemaGroups rows) ∧
      layout'.Perm (schemaGroups rows) ∧
      layout.Perm layout' ∧
      (layout.map Structure.Schema).Nodup ∧
      (∀ k, k ∈ layout.map Structure.Schema ↔ k ∈ rows.map Prod.fst) ∧
      (∀ g ∈ layout, g.Children = (rows.filter fun r => r.1 = g.Schema).map leafOf) := by
  have hq := Query_of_nonempty_answer E s structureQuery _ w h (by simpa using hne)
  have hp := structureLayout_perm_schemaGroups o rows
  have hp' := structureLayout_perm_schemaGroups o' rows
  have hschemas := structureLayout_schemas o (groupRows rows [])
  refine ⟨_, _, Structure_of_leafRows E o s rows hq, Structure_of_leafRows E o' s rows hq,
    hp, hp', hp.trans hp'.symm, ?_, ?_, fun g hg => structureLayout_children hg⟩
  · exact hschemas.nodup_iff.2 (groupRows_keys_nodup rows [] List.nodup_nil)
  · intro k
    rw [hschemas.mem_iff, groupRows_keys]
    simp

/-- The group nodes for the rows of the specification's example. -/
theorem schemaGroups_exampleRows : schemaGroups exampleRows = exampleForestRowOrder := by
  rfl

/-- The instance of the amended C2 at the rows of the specification's example,
iterated once in insertion order and once in reverse: both runs return the
groups `dbo:[Users, Orders]` and `sales:[Invoices]`. -/
theorem Structure_same_groups_row_order_example :
    exampleRows ≠ [] ∧
      exampleServer.exec exampleSystem.server exampleSystem.driver.c.db structureQuery
        = (.ok (exampleRows.map leafRow), ()) ∧
      ∃ layout layout',
        (sqlServerDriver.Structure exampleServer MapOrder.insertion exampleSystem).1
          = .ok layout ∧
        (sqlServerDriver.Structure exampleServer MapOrder.reversed exampleSystem).1
          = .ok layout' ∧
        layout.Perm exampleForestRowOrder ∧
        layout'.Perm exampleForestRowOrder ∧
        layout.Perm layout' ∧
        (layout.map Structure.Schema).Nodup ∧
        (∀ k, k ∈ layout.map Structure.Schema ↔ k ∈ exampleRows.map Prod.fst) ∧
        (∀ g ∈ layout,
          g.Children = (exampleRows.filter fun r => r.1 = g.Schema).map leafOf) :=
  ⟨by decide, rfl,
    schemaGroups_exampleRows ▸
      Structure_same_groups_row_order exampleServer MapOrder.insertion MapOrder.reversed
        exampleSystem exampleRows () (by decide) rfl⟩

/-- C3, as the claim states it, fails: a cursor that yields a good row and
then a row with one column makes `Structure` fault on `row[1]`; no error is
returned. -/
theorem Structure_short_row_faults :
    (sqlServerDriver.Structure shortRowServer MapOrder.insertion exampleSystem).1
      = .panic (.indexOutOfRange 1 1) := by
  rfl

/-- C3, amended: when the cursor yields well-formed rows and then a row that
is not of the two-string shape, `Structure` faults at that row (an index out
of range or a failed type assertion) under every iteration order; it returns
neither a forest nor a `MalformedRow` error. -/
theorem Structure_malformed_row_faults (E : Env σ) (o : MapOrder) (s : System σ)
    (pre : List (String × String)) (bad : Row) (rest : List Fetch)
    (hbad : bad.wellShaped = false)
    (h : (sqlServerDriver.Query E s structureQuery).1
      = .ok ⟨pre.map leafRow ++ .row bad :: rest⟩) :
    (∃ f, (sqlServerDriver.Structure E o s).1 = .panic f) ∧
      (sqlServerDriver.Structure E o s).1 ≠ .error .malformedRow ∧
      ∀ layout, (sqlServerDriver.Structure E o s).1 ≠ .ok layout := by
  obtain ⟨f, hf⟩ := structureRows_bad_row bad rest (groupRows pre []) hbad
  have hrun : (sqlServerDriver.Structure E o s).1 = .panic f := by
    rw [Structure_of_query E o s _ h]
    simp only [structureRows_append, hf]
  refine ⟨⟨f, hrun⟩, ?_, ?_⟩
  · rw [hrun]
    exact fun h => Outcome.noConfusion h
  · intro layout
    rw [hrun]
    exact fun h => Outcome.noConfusion h

/-- The instance of the amended C3 at a cursor with one good row followed by
a row with a single column. -/
theorem Structure_malformed_row_faults_example :
    Row.wellShaped [.str "dbo"] = false ∧
      (sqlServerDriver.Query shortRowServer exampleSystem structureQuery).1
        = .ok ⟨[("dbo", "Users")].map leafRow ++ .row [.str "dbo"] :: []⟩ ∧
      (∃ f, (sqlServerDriver.Structure shortRowServer MapOrder.insertion exampleSystem).1
        = .panic f) ∧
      (sqlServerDriver.Structure shortRowServer MapOrder.insertion exampleSystem).1
        ≠ .error .malformedRow ∧
      ∀ layout,
        (sqlServerDriver.Structure shortRowServer MapOrder.insertion exampleSystem).1
          ≠ .ok layout :=
  ⟨rfl, by decide,
    Structure_malformed_row_faults shortRowServer MapOrder.insertion exampleSystem
      [("dbo", "Users")] [.str "dbo"] [] rfl (by decide)⟩

/-! ## `Query` -/

theorem Client.Query_trace (E : Env σ) (s : System σ) (q : String) :
    (Client.Query E s q).2.trace = s.trace ++ [.exec s.driver.c.db q] ∧
      (Client.Query E s q).2.driver = s.driver := by
  unfold Client.Query
  split <;> exact ⟨rfl, rfl⟩

theorem ResultStream.eq_empty_of_not_HasNext (rows : ResultStream)
    (h : rows.HasNext = false) : rows = ⟨[]⟩ := by
  obtain ⟨pending⟩ := rows
  cases pending with
  | nil => rfl
  | cons f fs => simp [ResultStream.HasNext] at h

/-- C8, as the claim states it, fails: when `q` is itself the text of the
rows-affected probe and the server answers it with no row, the fallback sends
the same text again, so `q` is executed twice. -/
theorem Query_probe_text_runs_twice :
    (sqlServerDriver.Query silentServer exampleSystem
        "select @@ROWCOUNT as 'Rows Affected'").2.trace
        = [.exec 1 "select @@ROWCOUNT as 'Rows Affected'",
           .exec 1 "select @@ROWCOUNT as 'Rows Affected'"] ∧
      ((sqlServerDriver.Query silentServer exampleSystem
        "select @@ROWCOUNT as 'Rows Affected'").2.trace.drop exampleSystem.trace.length).count
          (.exec exampleSystem.driver.c.db "select @@ROWCOUNT as 'Rows Affected'") = 2 := by
  constructor <;> decide

/-- C8, amended: `Query` hands `QueryUntilNotEmpty` the two candidates `q` and
`select @@ROWCOUNT as 'Rows Affected'`, in that order.  With
`QueryUntilNotEmpty` as specified, the result is the stream of `q` when it is
non-empty (or the error of `q`), and otherwise whatever the probe gives; the
statements executed are `q`, once, followed by the probe only if the stream of
`q` was empty.  Unless `q` is itself the text of the probe and its stream is
empty, `q` occurs exactly once among the statements executed. -/
theorem Query_runs_query_then_probe (E : Env σ) (s : System σ) (q : String) :
    sqlServerDriver.Query E s q
        = Client.QueryUntilNotEmpty E s q ["select @@ROWCOUNT as 'Rows Affected'"] ∧
      (∀ rows, (Client.Query E s q).1 = .ok rows → rows.HasNext = true →
        sqlServerDriver.Query E s q = Client.Query E s q ∧
        (sqlServerDriver.Query E s q).2.trace = s.trace ++ [.exec s.driver.c.db q]) ∧
      (∀ rows, (Client.Query E s q).1 = .ok rows → rows.HasNext = false →
        sqlServerDriver.Query E s q
          = Client.Query E (Client.Query E s q).2 "select @@ROWCOUNT as 'Rows Affected'" ∧
        (sqlServerDriver.Query E s q).2.trace
          = s.trace ++ [.exec s.driver.c.db q,
              .exec s.driver.c.db "select @@ROWCOUNT as 'Rows Affected'"]) ∧
      (∀ e, (Client.Query E s q).1 = .error e →
        sqlServerDriver.Query E s q = Client.Query E s q ∧
        (sqlServerDriver.Query E s q).2.trace = s.trace ++ [.exec s.driver.c.db q]) ∧
      (¬ (q = "select @@ROWCOUNT as 'Rows Affected'" ∧
            (Client.Query E s q).1 = .ok ⟨[]⟩) →
        ((sqlServerDriver.Query E s q).2.trace.drop s.trace.length).count
          (.exec s.driver.c.db q) = 1) := by
  have hp : "select @@ROWCOUNT as 'Rows Affected'" = rowsAffectedProbe := rfl
  rw [hp]
  have hpanic : ∀ f, (Client.Query E s q).1 ≠ .panic f := by
    intro f
    unfold Client.Query
    split <;> exact fun h => Outcome.noConfusion h
  have hA : ∀ rows, (Client.Query E s q).1 = .ok rows → rows.HasNext = true →
      sqlServerDriver.Query E s q = Client.Query E s q := by
    intro rows h1 h2
    unfold sqlServerDriver.Query Client.QueryUntilNotEmpty
    rcases hq : Client.Query E s q with ⟨r, s'⟩
    rw [hq] at h1
    simp only at h1
    subst h1
    simp [h2]
  have hB : ∀ rows, (Client.Query E s q).1 = .ok rows → rows.HasNext = false →
      sqlServerDriver.Query E s q
        = Client.Query E (Client.Query E s q).2 rowsAffectedProbe := by
    intro rows h1 h2
    unfold sqlServerDriver.Query Client.QueryUntilNotEmpty
    rcases hq : Client.Query E s q with ⟨r, s'⟩
    rw [hq] at h1
    simp only at h1
    subst h1
    simp [h2, Client.QueryUntilNotEmpty]
  have hC : ∀ e, (Client.Query E s q).1 = .error e →
      sqlServerDriver.Query E s q = Client.Query E s q := by
    intro e h1
    unfold sqlServerDriver.Query Client.QueryUntilNotEmpty
    rcases hq : Client.Query E s q with ⟨r, s'⟩
    rw [hq] at h1
    simp only at h1
    subst h1
    rfl
  have hT := Client.Query_trace E s q
  have hT2 := Client.Query_trace E (Client.Query E s q).2 rowsAffectedProbe
  have hB' : ∀ rows, (Client.Query E s q).1 = .ok rows → rows.HasNext = false →
      (sqlServerDriver.Query E s q).2.trace
        = s.trace ++ [.exec s.driver.c.db q, .exec s.driver.c.db rowsAffectedProbe] := by
    intro rows h1 h2
    rw [hB rows h1 h2, hT2.1, hT.1, hT.2]
    simp
  refine ⟨rfl, ?_, ?_, ?_, ?_⟩
  · intro rows h1 h2
    exact ⟨hA rows h1 h2, by rw [hA rows h1 h2, hT.1]⟩
  · intro rows h1 h2
    exact ⟨hB rows h1 h2, hB' rows h1 h2⟩
  · intro e h1
    exact ⟨hC e h1, by rw [hC e h1, hT.1]⟩
  · intro hx
    rcases hr : (Client.Query E s q).1 with rows | e | f
    · cases hn : rows.HasNext
      · have hrows := ResultStream.eq_empty_of_not_HasNext rows hn
        have hne' : ¬ rowsAffectedProbe = q := by
          intro hq
          exact hx ⟨hq.symm, hrows ▸ hr⟩
        rw [hB' rows hr hn]
        simp [List.count_cons, hne']
      · rw [hA rows hr hn, hT.1]
        simp
    · rw [hC e hr, hT.1]
      simp
    · exact absurd hr (hpanic f)

/-- The instance of the amended C8 at an update statement that yields no
rows: the probe is run after it, and the statement occurs once among the
statements executed. -/
theorem Query_runs_query_then_probe_example :
    ¬ (updateStatement = "select @@ROWCOUNT as 'Rows Affected'" ∧
        (Client.Query updateServer exampleSystem updateStatement).1 = .ok ⟨[]⟩) ∧
      (sqlServerDriver.Query updateServer exampleSystem updateStatement).2.trace
        = [.exec 1 updateStatement, .exec 1 "select @@ROWCOUNT as 'Rows Affected'"] ∧
      ((sqlServerDriver.Query updateServer exampleSystem updateStatement).2.trace.drop
        exampleSystem.trace.length).count (.exec exampleSystem.driver.c.db updateStatement)
        = 1 :=
  ⟨by decide, by decide,
    (Query_runs_query_then_probe updateServer exampleSystem updateStatement).2.2.2.2
      (by decide)⟩

/-! ## `ListDatabases` -/

/-- A catalog row `(DB_NAME(), name)` of the current database and another one. -/
theorem listDatabasesRows_catalog (cur : String) (names : List String) (current : String)
    (available : List String) (hne : names ≠ []) :
    listDatabasesRows (names.map fun n => .row [.str cur, .str n]) current available
      = .ok (cur, available ++ names) := by
  induction names generalizing current available with
  | nil => exact absurd rfl hne
  | cons n names ih =>
    cases names with
    | nil => simp [listDatabasesRows, index, assertString, Except.bind]
    | cons n' names =>
      have := ih cur (available ++ [n]) (by simp)
      simp only [List.map_cons, listDatabasesRows, index, List.get?, assertString,
        Except.bind] at this ⊢
      rw [this]
      simp

theorem ListDatabases_of_query (E : Env σ) (s : System σ) (rows : ResultStream)
    (h : (sqlServerDriver.Query E s listDatabasesQuery).1 = .ok rows) :
    (sqlServerDriver.ListDatabases E s).1 = listDatabasesRows rows.pending "" [] := by
  unfold sqlServerDriver.ListDatabases
  rcases hq : sqlServerDriver.Query E s listDatabasesQuery with ⟨r, s'⟩
  rw [hq] at h
  simp only at h
  subst h
  rfl

/-- With at least one other database, `ListDatabases` returns the current
database's name and the other names in row order. -/
theorem ListDatabases_of_catalog (E : Env σ) (s : System σ) (cur : String)
    (names : List String) (hne : names ≠ [])
    (h : (sqlServerDriver.Query E s listDatabasesQuery).1
      = .ok ⟨names.map fun n => .row [.str cur, .str n]⟩) :
    (sqlServerDriver.ListDatabases E s).1 = .ok (cur, names) := by
  rw [ListDatabases_of_query E s _ h]
  simpa using listDatabasesRows_catalog cur names "" [] hne

/-- On a server with the current database `master` and two others. -/
theorem ListDatabases_three_databases :
    (sqlServerDriver.ListDatabases threeDatabaseServer exampleSystem).1
      = .ok ("master", ["tempdb", "sales"]) := by
  decide

/-- C6 at its failing input: on a server where the catalog query yields no
row (no database other than the current one), `Query` falls back to the
rows-affected probe and `ListDatabases` faults on the probe's integer column;
and where the probe yields no row either, `ListDatabases` returns an empty
name as `current`. -/
theorem ListDatabases_lone_database :
    (sqlServerDriver.ListDatabases loneDatabaseServer exampleSystem).1
        = .panic (.typeAssertion (.int 0)) ∧
      (sqlServerDriver.ListDatabases silentServer exampleSystem).1 = .ok ("", []) := by
  constructor <;> decide

/-! ## `SelectDatabase` -/

/-- C4: `SelectDatabase` calls `sql.Open` once, on the rendering of the
rewritten URL.  If that fails, it returns the open error wrapped in "unable to
switch databases", `Swap` is not called and the engine keeps its handle; if it
succeeds, `SelectDatabase` returns no error, `Swap` is called exactly once,
with the new handle, and the engine holds that handle. -/
theorem SelectDatabase_swaps_iff_opened (E : Env σ) (s : System σ) (name : GoString) :
    match E.sqlOpen "sqlserver" (E.urlString (selectDatabaseURL s.driver.url name)) with
    | .error err =>
      (sqlServerDriver.SelectDatabase E s name).1
          = .error (.wrap "unable to switch databases: " err) ∧
        (sqlServerDriver.SelectDatabase E s name).2.trace
          = s.trace ++ [.dial "sqlserver" (E.urlString (selectDatabaseURL s.driver.url name))] ∧
        (sqlServerDriver.SelectDatabase E s name).2.driver.c = s.driver.c
    | .ok db =>
      (sqlServerDriver.SelectDatabase E s name).1 = .ok () ∧
        (sqlServerDriver.SelectDatabase E s name).2.trace
          = s.trace ++ [.dial "sqlserver" (E.urlString (selectDatabaseURL s.driver.url name)),
              .swap db] ∧
        (sqlServerDriver.SelectDatabase E s name).2.driver.c = ⟨db⟩ := by
  rcases h : E.sqlOpen "sqlserver" (E.urlString (selectDatabaseURL s.driver.url name))
    with err | db
  · simp [sqlServerDriver.SelectDatabase, h]
  · simp [sqlServerDriver.SelectDatabase, h, Client.Swap]

/-! ## `Columns` -/

theorem Client.ColumnsFromQuery_trace (E : Env σ) (s : System σ) (query : String)
    (args : List String) :
    (Client.ColumnsFromQuery E s query args).2.trace
      = s.trace ++ [.execBound s.driver.c.db query args] := by
  unfold Client.ColumnsFromQuery
  split <;> rfl

/-- C7: for every `TableOptions`, `Columns` causes one statement to be
executed; its SQL text is the template of the source, whatever `opts.Table`
and `opts.Schema` are, and the two identifiers are the values bound to its
parameters, table first.  So for any two `TableOptions` the texts executed
are the same. -/
theorem Columns_binds_identifiers (E : Env σ) (s : System σ) (opts : TableOptions) :
    (sqlServerDriver.Columns E s opts).2.trace
        = s.trace ++ [.execBound s.driver.c.db
            "\n\t\tSELECT\n\t\t\tcolumn_name,\n\t\t\tdata_type\n\t\tFROM information_schema.columns\n\t\t\tWHERE table_name='%s' AND\n\t\t\ttable_schema = '%s'"
            [opts.Table, opts.Schema]] ∧
      ∀ opts' : TableOptions,
        ((sqlServerDriver.Columns E s opts).2.trace.drop s.trace.length).filterMap
            Event.statement
          = ((sqlServerDriver.Columns E s opts').2.trace.drop s.trace.length).filterMap
            Event.statement := by
  have h : ∀ o : TableOptions, (sqlServerDriver.Columns E s o).2.trace
      = s.trace ++ [.execBound s.driver.c.db columnsTemplate [o.Table, o.Schema]] := by
    intro o
    unfold sqlServerDriver.Columns
    exact Client.ColumnsFromQuery_trace E s _ _
  refine ⟨h opts, ?_⟩
  intro opts'
  rw [h opts, h opts']
  simp [Event.statement]

/-- A table name holding single quotes is bound as a value; the text of the
statement is the one executed for a plain table name. -/
theorem Columns_quote_in_table_name :
    (sqlServerDriver.Columns exampleServer exampleSystem quoteOptions).2.trace
        = [.execBound 1 columnsTemplate ["x' OR '1'='1", "dbo"]] ∧
      (sqlServerDriver.Columns exampleServer exampleSystem plainOptions).2.trace
        = [.execBound 1 columnsTemplate ["Users", "dbo"]] := by
  constructor <;> decide

/-! ## `net/url`: escaping -/

theorem upperhex_spec (n : Nat) (h : n < 16) :
    ishex (upperhex n) = true ∧ unhex (upperhex n) = n ∧
      (upperhex n).val ≠ 38 ∧ (upperhex n).val ≠ 59 ∧ (upperhex n).val ≠ 61 := by
  interval_cases n <;> decide

theorem shouldEscape_false (c : Fin 256) (h : shouldEscape c = false) :
    c.val ≠ 37 ∧ c.val ≠ 43 ∧ c.val ≠ 38 ∧ c.val ≠ 59 ∧ c.val ≠ 61 := by
  revert c
  decide

theorem QueryUnescape_other (c : Fin 256) (s : GoString) (h37 : c.val ≠ 37) (h43 : c.val ≠ 43) :
    QueryUnescape (c :: s) = (QueryUnescape s).map fun r => c :: r := by
  conv_lhs => unfold QueryUnescape
  simp [h37, h43]

theorem QueryUnescape_plus (s : GoString) :
    QueryUnescape (43 :: s) = (QueryUnescape s).map fun r => (32 : Fin 256) :: r := by
  conv_lhs => unfold QueryUnescape
  have h1 : ¬ ((43 : Fin 256).val = 37) := by decide
  have h2 : (43 : Fin 256).val = 43 := by decide
  rw [if_neg h1, if_pos h2]

theorem QueryUnescape_percent (h1 h2 : Fin 256) (t : GoString) :
    QueryUnescape (37 :: h1 :: h2 :: t) =
      if ishex h1 && ishex h2 then
        (QueryUnescape t).map fun r =>
          (⟨(unhex h1 * 16 + unhex h2) % 256, Nat.mod_lt _ (by decide)⟩ : Fin 256) :: r
      else none := by
  conv_lhs => unfold QueryUnescape
  have h : (37 : Fin 256).val = 37 := by decide
  rw [if_pos h]


theorem QueryUnescape_QueryEscape (s : GoString) : QueryUnescape (QueryEscape s) = some s := by
  induction s with
  | nil => rfl
  | cons c s ih =>
    by_cases h32 : c.val = 32
    · have hc : (32 : Fin 256) = c := Fin.ext h32.symm
      simp only [QueryEscape, h32, if_true]
      rw [QueryUnescape_plus, ih, Option.map_some', hc]
    · by_cases hesc : shouldEscape c = true
      · have hhi := upperhex_spec (c.val / 16) (by omega)
        have hlo := upperhex_spec (c.val % 16) (by omega)
        have hbyte : (⟨(c.val / 16 * 16 + c.val % 16) % 256, Nat.mod_lt _ (by decide)⟩ :
            Fin 256) = c := by
          apply Fin.ext
          simp only
          omega
        simp only [QueryEscape, h32, hesc, if_false, if_true]
        rw [QueryUnescape_percent, ih]
        simp only [hhi.1, hlo.1, Bool.and_self, if_true, hhi.2.1, hlo.2.1, Option.map_some',
          hbyte]
      · have hesc' : shouldEscape c = false := by simpa using hesc
        have hne := shouldEscape_false c hesc'
        simp only [QueryEscape, h32, hesc', if_false, Bool.false_eq_true]
        rw [QueryUnescape_other c _ hne.1 hne.2.1, ih, Option.map_some']

theorem QueryEscape_clean (s : GoString) :
    ∀ c ∈ QueryEscape s, c.val ≠ 38 ∧ c.val ≠ 59 ∧ c.val ≠ 61 := by
  induction s with
  | nil => simp [QueryEscape]
  | cons c s ih =>
    intro d hd
    by_cases h32 : c.val = 32
    · simp only [QueryEscape, h32, if_true, List.mem_cons] at hd
      rcases hd with hd | hd
      · rw [hd]
        decide
      · exact ih d hd
    · by_cases hesc : shouldEscape c = true
      · have hhi := upperhex_spec (c.val / 16) (by omega)
        have hlo := upperhex_spec (c.val % 16) (by omega)
        simp only [QueryEscape, h32, hesc, if_false, if_true, List.mem_cons] at hd
        rcases hd with hd | hd | hd | hd
        · rw [hd]
          decide
        · rw [hd]
          exact hhi.2.2
        · rw [hd]
          exact hlo.2.2
        · exact ih d hd
      · have hesc' : shouldEscape c = false := by simpa using hesc
        have hne := shouldEscape_false c hesc'
        simp only [QueryEscape, h32, hesc', if_false, Bool.false_eq_true, List.mem_cons] at hd
        rcases hd with hd | hd
        · rw [hd]
          exact hne.2.2
        · exact ih d hd

/-! ## `net/url`: the map of parameters -/

theorem Values.lookup_put (m : Values) (k k' : GoString) (vs : List GoString) :
    Values.lookup (Values.put m k vs) k' = if k = k' then some vs else Values.lookup m k' := by
  induction m with
  | nil => simp [Values.put, Values.lookup]
  | cons kv m ih =>
    obtain ⟨a, b⟩ := kv
    by_cases hak : a = k
    · subst hak
      by_cases hak' : a = k' <;> simp [Values.put, Values.lookup, hak']
    · by_cases hak' : a = k'
      · subst hak'
        have : ¬ k = a := fun h => hak h.symm
        simp [Values.put, Values.lookup, hak, this]
      · simp [Values.put, Values.lookup, hak, hak', ih]

theorem Values.keys_put (m : Values) (k : GoString) (vs : List GoString) :
    (Values.put m k vs).map Prod.fst =
      if k ∈ m.map Prod.fst then m.map Prod.fst else m.map Prod.fst ++ [k] := by
  induction m with
  | nil => simp [Values.put]
  | cons kv m ih =>
    obtain ⟨a, b⟩ := kv
    by_cases hak : a = k
    · subst hak
      simp [Values.put]
    · have hka : ¬ k = a := fun h => hak h.symm
      simp only [Values.put, hak, if_false, List.map_cons, ih, List.mem_cons, hka, false_or]
      split <;> simp

theorem Values.lookup_eq_none (m : Values) (k : GoString) :
    Values.lookup m k = none ↔ k ∉ m.map Prod.fst := by
  induction m with
  | nil => simp [Values.lookup]
  | cons kv m ih =>
    obtain ⟨a, b⟩ := kv
    by_cases hak : a = k
    · simp [Values.lookup, hak]
    · have hka : ¬ k = a := fun h => hak h.symm
      simp [Values.lookup, hak, hka, ih]

theorem Values.mem_of_lookup {m : Values} {k : GoString} {vs : List GoString}
    (h : Values.lookup m k = some vs) : (k, vs) ∈ m := by
  induction m with
  | nil => simp [Values.lookup] at h
  | cons kv m ih =>
    obtain ⟨a, b⟩ := kv
    by_cases hak : a = k
    · simp only [Values.lookup, hak, if_true, Option.some.injEq] at h
      simp [hak, h]
    · simp only [Values.lookup, hak, if_false] at h
      exact List.mem_cons_of_mem _ (ih h)

theorem Values.mem_put {m : Values} {k : GoString} {vs : List GoString}
    {kv : GoString × List GoString} (h : kv ∈ Values.put m k vs) : kv = (k, vs) ∨ kv ∈ m := by
  induction m with
  | nil => simpa [Values.put] using h
  | cons e m ih =>
    obtain ⟨a, b⟩ := e
    by_cases hak : a = k
    · simp only [Values.put, hak, if_true, List.mem_cons] at h
      rcases h with h | h
      · exact Or.inl h
      · exact Or.inr (List.mem_cons_of_mem _ h)
    · simp only [Values.put, hak, if_false, List.mem_cons] at h
      rcases h with h | h
      · exact Or.inr (h ▸ List.mem_cons_self _ _)
      · rcases ih h with h' | h'
        · exact Or.inl h'
        · exact Or.inr (List.mem_cons_of_mem _ h')

/-! ## `net/url`: reading back what `Encode` wrote -/

theorem splitAmp_ne_nil (s : GoString) : splitAmp s ≠ [] := by
  cases s with
  | nil => simp [splitAmp]
  | cons c s =>
    simp only [splitAmp]
    split
    · simp
    · split <;> simp

theorem splitAmp_clean (seg : GoString) (h : ∀ c ∈ seg, c.val ≠ 38) : splitAmp seg = [seg] := by
  induction seg with
  | nil => rfl
  | cons c seg ih =>
    have hc : c.val ≠ 38 := h c (List.mem_cons_self _ _)
    simp [splitAmp, hc, ih fun d hd => h d (List.mem_cons_of_mem _ hd)]

theorem splitAmp_append (seg rest : GoString) (h : ∀ c ∈ seg, c.val ≠ 38) :
    splitAmp (seg ++ 38 :: rest) = seg :: splitAmp rest := by
  induction seg with
  | nil =>
    have h38 : (38 : Fin 256).val = 38 := by decide
    simp [splitAmp, h38]
  | cons c seg ih =>
    have hc : c.val ≠ 38 := h c (List.mem_cons_self _ _)
    simp [splitAmp, hc, ih fun d hd => h d (List.mem_cons_of_mem _ hd)]

theorem splitAmp_joined (buf : GoString) (segs : List GoString)
    (hbuf : ∀ c ∈ buf, c.val ≠ 38) (hsegs : ∀ seg ∈ segs, ∀ c ∈ seg, c.val ≠ 38) :
    splitAmp (buf ++ (segs.map fun seg => 38 :: seg).flatten) = buf :: segs := by
  induction segs generalizing buf with
  | nil => simpa using splitAmp_clean buf hbuf
  | cons seg segs ih =>
    simp only [List.map_cons, List.flatten_cons, List.cons_append]
    rw [splitAmp_append buf _ hbuf,
      ih seg (hsegs seg (List.mem_cons_self _ _))
        fun t ht => hsegs t (List.mem_cons_of_mem _ ht)]

theorem joinOnto_of_ne_nil (buf : GoString) (segs : List GoString) (hbuf : buf ≠ []) :
    joinOnto buf segs = buf ++ (segs.map fun seg => 38 :: seg).flatten := by
  induction segs generalizing buf with
  | nil => simp [joinOnto]
  | cons seg segs ih =>
    have hlen : buf.length > 0 := List.length_pos.2 hbuf
    simp only [joinOnto, hlen, if_true]
    rw [ih _ (by simp [hbuf])]
    simp

theorem joinOnto_append (buf : GoString) (a b : List GoString) :
    joinOnto buf (a ++ b) = joinOnto (joinOnto buf a) b := by
  induction a generalizing buf with
  | nil => rfl
  | cons seg a ih => simp [joinOnto, ih]

theorem encodeValues_eq (k : GoString) (vs : List GoString) (buf : GoString) :
    encodeValues (QueryEscape k) vs buf = joinOnto buf (vs.map fun x => encodePair (k, x)) := by
  induction vs generalizing buf with
  | nil => rfl
  | cons x vs ih =>
    simp only [encodeValues, List.map_cons, joinOnto, encodePair]
    rw [ih]
    simp [encodePair, List.append_assoc]

theorem encodeKeys_eq (v : Values) (keys : List GoString) (buf : GoString) :
    encodeKeys v keys buf = joinOnto buf ((pairsOf v keys).map encodePair) := by
  induction keys generalizing buf with
  | nil => rfl
  | cons k keys ih =>
    simp only [encodeKeys, pairsOf, List.flatMap_cons, List.map_append, joinOnto_append]
    rw [ih, encodeValues_eq]
    simp [pairsOf, Function.comp_def]

theorem cutEq_append (a b : GoString) (h : ∀ c ∈ a, c.val ≠ 61) :
    cutEq (a ++ 61 :: b) = (a, b) := by
  induction a with
  | nil =>
    have h61 : (61 : Fin 256).val = 61 := by decide
    simp [cutEq, h61]
  | cons c a ih =>
    have hc : c.val ≠ 61 := h c (List.mem_cons_self _ _)
    simp [cutEq, hc, ih fun d hd => h d (List.mem_cons_of_mem _ hd)]

theorem encodePair_clean (p : GoString × GoString) :
    ∀ c ∈ encodePair p, c.val ≠ 38 ∧ c.val ≠ 59 := by
  intro c hc
  simp only [encodePair, List.mem_append, List.mem_singleton] at hc
  rcases hc with (hc | hc) | hc
  · exact ⟨(QueryEscape_clean _ c hc).1, (QueryEscape_clean _ c hc).2.1⟩
  · rw [hc]
    decide
  · exact ⟨(QueryEscape_clean _ c hc).1, (QueryEscape_clean _ c hc).2.1⟩

theorem parsePiece_encodePair (m : Values) (p : GoString × GoString) :
    parsePiece m (encodePair p) = addPair m p := by
  have hany : (encodePair p).any (fun c => decide (c.val = 59)) = false := by
    rw [List.any_eq_false]
    intro c hc
    simpa using (encodePair_clean p c hc).2
  have hne : encodePair p ≠ [] := by simp [encodePair]
  have hcut : cutEq (encodePair p) = (QueryEscape p.1, QueryEscape p.2) := by
    simp only [encodePair, List.append_assoc, List.singleton_append]
    exact cutEq_append _ _ fun c hc => (QueryEscape_clean _ c hc).2.2
  simp only [parsePiece, hany, hne, hcut, QueryUnescape_QueryEscape, addPair]
  simp

theorem foldl_parsePiece_encodePair (m : Values) (pairs : List (GoString × GoString)) :
    (pairs.map encodePair).foldl parsePiece m = pairs.foldl addPair m := by
  induction pairs generalizing m with
  | nil => rfl
  | cons p pairs ih => simp [parsePiece_encodePair, ih]

theorem parseQuery_joinOnto (pairs : List (GoString × GoString)) :
    parseQuery (joinOnto [] (pairs.map encodePair)) = pairs.foldl addPair [] := by
  cases pairs with
  | nil => simp [joinOnto, parseQuery, splitAmp, parsePiece]
  | cons p pairs =>
    have hne : encodePair p ≠ [] := by simp [encodePair]
    simp only [List.map_cons, joinOnto, List.length_nil, gt_iff_lt, lt_self_iff_false,
      if_false, List.nil_append]
    rw [joinOnto_of_ne_nil _ _ hne, parseQuery,
      splitAmp_joined _ _ (fun c hc => (encodePair_clean p c hc).1)
        (by
          intro seg hseg c hc
          obtain ⟨q, _, rfl⟩ := List.mem_map.1 hseg
          exact (encodePair_clean q c hc).1)]
    rw [← List.map_cons, foldl_parsePiece_encodePair]

theorem parseQuery_Encode (v : Values) :
    parseQuery (Values.Encode v) = (pairsOf v (sortKeys (v.map Prod.fst))).foldl addPair [] := by
  unfold Values.Encode
  split
  · rename_i h
    have hv : v = [] := List.length_eq_zero.1 h
    subst hv
    simp [parseQuery, splitAmp, parsePiece, sortKeys, pairsOf]
  · rw [encodeKeys_eq, parseQuery_joinOnto]

theorem lookup_foldl_addPair (pairs : List (GoString × GoString)) (m : Values)
    (k : GoString) :
    Values.lookup (pairs.foldl addPair m) k =
      if (pairs.filter fun p => p.1 = k) = [] then Values.lookup m k
      else some (Values.get m k ++ (pairs.filter fun p => p.1 = k).map Prod.snd) := by
  induction pairs generalizing m with
  | nil => simp
  | cons p pairs ih =>
    rw [List.foldl_cons, ih]
    by_cases hk : p.1 = k
    · have hget : Values.get (addPair m p) k = Values.get m k ++ [p.2] := by
        simp [Values.get, addPair, Values.lookup_put, hk]
      have hlook : Values.lookup (addPair m p) k = some (Values.get m k ++ [p.2]) := by
        simp [addPair, Values.lookup_put, hk]
      simp only [List.filter_cons, hk, decide_True, if_true, hget, hlook]
      generalize List.filter (fun p => decide (p.1 = k)) pairs = F
      cases F <;> simp
    · have hget : Values.get (addPair m p) k = Values.get m k := by
        simp [Values.get, addPair, Values.lookup_put, hk]
      have hlook : Values.lookup (addPair m p) k = Values.lookup m k := by
        simp [addPair, Values.lookup_put, hk]
      simp only [List.filter_cons, hk, decide_False, hget, hlook]
      simp

theorem filter_pairsOf (v : Values) (keys : List GoString) (hnd : keys.Nodup) (k : GoString) :
    (pairsOf v keys).filter (fun p => p.1 = k) =
      if k ∈ keys then (Values.get v k).map fun x => (k, x) else [] := by
  induction keys with
  | nil => simp [pairsOf]
  | cons a keys ih =>
    simp only [List.nodup_cons] at hnd
    have ih' := ih hnd.2
    simp only [pairsOf, List.flatMap_cons, List.filter_append] at ih' ⊢
    rw [ih']
    by_cases hak : a = k
    · subst hak
      simp [hnd.1, List.filter_map, Function.comp_def]
    · have hka : ¬ k = a := fun h => hak h.symm
      simp [hak, hka, List.filter_map, Function.comp_def]

theorem sortKeys_perm (keys : List GoString) : (sortKeys keys).Perm keys :=
  List.perm_insertionSort _ keys

theorem Values.put_wellFormed (m : Values) (k : GoString) (vs : List GoString)
    (h : (m.map Prod.fst).Nodup ∧ ∀ kv ∈ m, kv.2 ≠ []) (hvs : vs ≠ []) :
    ((Values.put m k vs).map Prod.fst).Nodup ∧ ∀ kv ∈ Values.put m k vs, kv.2 ≠ [] := by
  constructor
  · rw [Values.keys_put]
    split
    · exact h.1
    · rename_i hk
      exact List.Nodup.append h.1 (List.nodup_singleton _) (by simpa using hk)
  · intro kv hkv
    rcases Values.mem_put hkv with rfl | hkv
    · exact hvs
    · exact h.2 kv hkv

theorem parsePiece_wellFormed (m : Values) (piece : GoString)
    (h : (m.map Prod.fst).Nodup ∧ ∀ kv ∈ m, kv.2 ≠ []) :
    ((parsePiece m piece).map Prod.fst).Nodup ∧ ∀ kv ∈ parsePiece m piece, kv.2 ≠ [] := by
  unfold parsePiece
  split
  · exact h
  · split
    · exact h
    · split
      · exact h
      · split
        · exact h
        · exact Values.put_wellFormed m _ _ h (by simp)

theorem parseQuery_wellFormed (query : GoString) :
    ((parseQuery query).map Prod.fst).Nodup ∧ ∀ kv ∈ parseQuery query, kv.2 ≠ [] := by
  have key : ∀ (segs : List GoString) (m : Values),
      ((m.map Prod.fst).Nodup ∧ ∀ kv ∈ m, kv.2 ≠ []) →
      ((segs.foldl parsePiece m).map Prod.fst).Nodup ∧
        ∀ kv ∈ segs.foldl parsePiece m, kv.2 ≠ [] := by
    intro segs
    induction segs with
    | nil => exact fun m h => h
    | cons seg segs ih => exact fun m h => ih _ (parsePiece_wellFormed m seg h)
  exact key _ [] (by simp)

theorem lookup_parseQuery_Encode (v : Values) (hnd : (v.map Prod.fst).Nodup)
    (hne : ∀ kv ∈ v, kv.2 ≠ []) (k : GoString) :
    Values.lookup (parseQuery (Values.Encode v)) k = Values.lookup v k := by
  have hperm := sortKeys_perm (v.map Prod.fst)
  rw [parseQuery_Encode, lookup_foldl_addPair, filter_pairsOf v _ (hperm.nodup_iff.2 hnd)]
  by_cases hk : k ∈ v.map Prod.fst
  · have hk' : k ∈ sortKeys (v.map Prod.fst) := hperm.mem_iff.2 hk
    rcases hl : Values.lookup v k with _ | vs
    · exact absurd hk ((Values.lookup_eq_none v k).1 hl)
    · have hvs : vs ≠ [] := hne _ (Values.mem_of_lookup hl)
      simp [hk', Values.get, hl, hvs, Values.lookup, Function.comp_def]
  · have hk' : k ∉ sortKeys (v.map Prod.fst) := fun h => hk (hperm.mem_iff.1 h)
    simp [hk', (Values.lookup_eq_none v k).2 hk, Values.lookup]

theorem selectDatabaseURL_lookup (url : URL) (name k : GoString) :
    Values.lookup (selectDatabaseURL url name).Query k =
      if k = ascii "database" then some [name] else Values.lookup url.Query k := by
  have hwf := parseQuery_wellFormed url.RawQuery
  have hwf' := Values.put_wellFormed _ (ascii "database") [name] hwf (by simp)
  have hq : (selectDatabaseURL url name).Query
      = parseQuery (Values.Encode
          (Values.put (parseQuery url.RawQuery) (ascii "database") [name])) := rfl
  rw [hq, lookup_parseQuery_Encode _ hwf'.1 hwf'.2, Values.lookup_put]
  by_cases hk : k = ascii "database"
  · simp [hk, URL.Query]
  · have hk' : ¬ ascii "database" = k := fun h => hk h.symm
    simp [hk, hk', URL.Query]

/-- C5: `SelectDatabase(name)` calls `sql.Open` on the rendering of a URL that
differs from the stored one in the raw query only.  Among the parameters that
`URL.Query` reads from it, `database` has the single value `name`, whether or
not it had values before, and every other key has the values it had, in the
same order; scheme, user info, host and path are those of the stored URL. -/
theorem SelectDatabase_target_parameters (E : Env σ) (s : System σ) (name : GoString) :
    (∃ rest, (sqlServerDriver.SelectDatabase E s name).2.trace
      = s.trace ++
        .dial "sqlserver" (E.urlString (selectDatabaseURL s.driver.url name)) :: rest) ∧
      (∀ k, Values.lookup (selectDatabaseURL s.driver.url name).Query k =
        if k = ascii "database" then some [name] else Values.lookup s.driver.url.Query k) ∧
      (selectDatabaseURL s.driver.url name).Scheme = s.driver.url.Scheme ∧
      (selectDatabaseURL s.driver.url name).User = s.driver.url.User ∧
      (selectDatabaseURL s.driver.url name).Host = s.driver.url.Host ∧
      (selectDatabaseURL s.driver.url name).Path = s.driver.url.Path ∧
      { selectDatabaseURL s.driver.url name with RawQuery := s.driver.url.RawQuery }
        = s.driver.url := by
  refine ⟨?_, fun k => selectDatabaseURL_lookup _ name k, rfl, rfl, rfl, rfl, rfl⟩
  rcases h : E.sqlOpen "sqlserver" (E.urlString (selectDatabaseURL s.driver.url name))
    with err | db
  · exact ⟨[], by simp [sqlServerDriver.SelectDatabase, h]⟩
  · exact ⟨[.swap db], by simp [sqlServerDriver.SelectDatabase, h, Client.Swap]⟩

/-- C10, as the claim states it, fails: the driver stores
`sqlserver://localhost?database=master`, the open of `tempdb` fails, and after
the error is returned the engine's handle is the old one but the stored URL
has the raw query `database=tempdb`. -/
theorem SelectDatabase_failed_open_changes_url :
    (sqlServerDriver.SelectDatabase exampleServer exampleSystem (ascii "tempdb")).1
        = .error (.wrap "unable to switch databases: " (.backend "login failed")) ∧
      (sqlServerDriver.SelectDatabase exampleServer exampleSystem (ascii "tempdb")).2.driver.c
        = exampleSystem.driver.c ∧
      exampleSystem.driver.url.RawQuery = ascii "database=master" ∧
      (sqlServerDriver.SelectDatabase exampleServer exampleSystem
        (ascii "tempdb")).2.driver.url.RawQuery = ascii "database=tempdb" ∧
      (sqlServerDriver.SelectDatabase exampleServer exampleSystem (ascii "tempdb")).2.driver.url
        ≠ exampleSystem.driver.url := by
  refine ⟨by decide, by decide, by decide, by decide, by decide⟩

/-- C10, amended: if opening the new handle fails, then after
`SelectDatabase(name)` has returned its error the engine's handle is what it
was before the call, and the stored URL is the rewritten one: it differs from
the old one in the raw query only, `database` has the single value `name`,
and every other parameter has the values it had. -/
theorem SelectDatabase_failed_open_state (E : Env σ) (s : System σ) (name : GoString)
    (err : Error)
    (h : E.sqlOpen "sqlserver" (E.urlString (selectDatabaseURL s.driver.url name))
      = .error err) :
    (sqlServerDriver.SelectDatabase E s name).1
        = .error (.wrap "unable to switch databases: " err) ∧
      (sqlServerDriver.SelectDatabase E s name).2.driver.c = s.driver.c ∧
      (sqlServerDriver.SelectDatabase E s name).2.driver.url
        = selectDatabaseURL s.driver.url name ∧
      (∀ k, Values.lookup (sqlServerDriver.SelectDatabase E s name).2.driver.url.Query k =
        if k = ascii "database" then some [name] else Values.lookup s.driver.url.Query k) ∧
      { (sqlServerDriver.SelectDatabase E s name).2.driver.url with
          RawQuery := s.driver.url.RawQuery } = s.driver.url := by
  have hurl : (sqlServerDriver.SelectDatabase E s name).2.driver.url
      = selectDatabaseURL s.driver.url name := by
    simp [sqlServerDriver.SelectDatabase, h]
  refine ⟨by simp [sqlServerDriver.SelectDatabase, h],
    by simp [sqlServerDriver.SelectDatabase, h], hurl, ?_, ?_⟩
  · intro k
    rw [hurl]
    exact selectDatabaseURL_lookup _ name k
  · rw [hurl]
    rfl

/-- The instance of the amended C10 at the stored URL
`sqlserver://localhost?database=master` and the name `tempdb`. -/
theorem SelectDatabase_failed_open_state_example :
    exampleServer.sqlOpen "sqlserver"
        (exampleServer.urlString (selectDatabaseURL exampleSystem.driver.url (ascii "tempdb")))
        = .error (.backend "login failed") ∧
      (sqlServerDriver.SelectDatabase exampleServer exampleSystem (ascii "tempdb")).1
        = .error (.wrap "unable to switch databases: " (.backend "login failed")) ∧
      (sqlServerDriver.SelectDatabase exampleServer exampleSystem (ascii "tempdb")).2.driver.c
        = exampleSystem.driver.c ∧
      (sqlServerDriver.SelectDatabase exampleServer exampleSystem (ascii "tempdb")).2.driver.url
        = selectDatabaseURL exampleSystem.driver.url (ascii "tempdb") ∧
      (∀ k, Values.lookup (sqlServerDriver.SelectDatabase exampleServer exampleSystem
          (ascii "tempdb")).2.driver.url.Query k =
        if k = ascii "database" then some [ascii "tempdb"]
        else Values.lookup exampleSystem.driver.url.Query k) ∧
      { (sqlServerDriver.SelectDatabase exampleServer exampleSystem
          (ascii "tempdb")).2.driver.url with
          RawQuery := exampleSystem.driver.url.RawQuery } = exampleSystem.driver.url :=
  ⟨rfl, SelectDatabase_failed_open_state exampleServer exampleSystem (ascii "tempdb")
    (.backend "login failed") rfl⟩

end Dbee
